import Mathlib

/-!
Shallow embedding of the multi-year incremental merge engine of
`02_merge_past_data.py` and `02_merge_past_data_2Q.py`.

Polars DataFrames are modelled as rectangular tables whose rows are
association lists from column name to cell; joins, column updates,
renames and aggregations follow the polars semantics the scripts rely on
(full outer join without key coalescing, null join keys never matching,
left join multiplying rows per match, `with_columns` replacing a column
in place or appending a new one).
-/

/-- A cell of a table: SQL-style null, a text value, or an integer metric value. -/
inductive Cell where
  | null : Cell
  | str : String → Cell
  | num : Int → Cell
deriving DecidableEq, Repr

/-- Whether a cell is null. -/
def Cell.isNull : Cell → Bool
  | Cell.null => true
  | _ => false

/-- Numeric content of a cell; nulls and text contribute 0 to sums
(polars `Series.sum` ignores nulls). -/
def cellToInt : Cell → Int
  | Cell.num n => n
  | _ => 0

/-- A row: association list from column name to cell. -/
abbrev Row := List (String × Cell)

/-- Cell of a row at a column; absent entries read as null. -/
def getCell (r : Row) (c : String) : Cell := (List.lookup c r).getD Cell.null

/-- The column names carried by a row. -/
def rowNames (r : Row) : List String := r.map Prod.fst

/-- Replace the value stored under column `c` (all entries with that name). -/
def rowUpdate (r : Row) (c : String) (v : Cell) : Row :=
  r.map (fun p => if p.1 = c then (c, v) else p)

/-- Remove every entry named `c` from a row. -/
def rowErase (r : Row) (c : String) : Row := r.filter (fun p => ¬ p.1 = c)

/-- A DataFrame: a column list plus a list of rows. -/
structure DF where
  cols : List String
  rows : List Row
deriving DecidableEq, Repr

/-- polars `DataFrame.is_empty`: true when the height is zero. -/
def DF.isEmpty (df : DF) : Bool := df.rows.isEmpty

/-- polars `with_columns(expr.alias(c))`: replace column `c` in place when it
exists, else append it; the expression reads the pre-update row. -/
def DF.withColumn (df : DF) (c : String) (f : Row → Cell) : DF :=
  if df.cols.contains c then
    { cols := df.cols, rows := df.rows.map (fun r => rowUpdate r c (f r)) }
  else
    { cols := df.cols ++ [c], rows := df.rows.map (fun r => r ++ [(c, f r)]) }

/-- polars `DataFrame.drop`. -/
def DF.drop (df : DF) (c : String) : DF :=
  { cols := df.cols.filter (fun c' => ¬ c' = c),
    rows := df.rows.map (fun r => rowErase r c) }

/-- Apply a rename mapping to one column name (identity when unmapped). -/
def applyRename (m : List (String × String)) (c : String) : String :=
  (List.lookup c m).getD c

/-- polars `DataFrame.rename`. -/
def DF.rename (df : DF) (m : List (String × String)) : DF :=
  { cols := df.cols.map (applyRename m),
    rows := df.rows.map (fun r => r.map (fun p => (applyRename m p.1, p.2))) }

/-- Sum of a column over all rows, nulls ignored (contributing 0). -/
def DF.sumCol (df : DF) (c : String) : Int :=
  (df.rows.map (fun r => cellToInt (getCell r c))).sum

/-- A well-formed table: no duplicate column names, and every row carries
exactly the table's columns in order. -/
def DF.WF (df : DF) : Prop :=
  df.cols.Nodup ∧ ∀ r ∈ df.rows, rowNames r = df.cols

/-- No row of the table carries an entry named `c` at all. -/
def RowsNo (df : DF) (c : String) : Prop := ∀ r ∈ df.rows, List.lookup c r = none

/-- Every row of the table carries an entry named `c`. -/
def HasCol (df : DF) (c : String) : Prop := ∀ r ∈ df.rows, (List.lookup c r).isSome

/-- Substring test on character lists (Python `pat in s`). -/
def hasSubAux (p : List Char) : List Char → Bool
  | [] => p.isEmpty
  | c :: s => p.isPrefixOf (c :: s) || hasSubAux p s

/-- Python substring containment `pat in s`. -/
def strHasSub (s pat : String) : Bool := hasSubAux pat.data s.data

/-- Python `s.endswith(p)`. -/
def strEndsWith (s p : String) : Bool := p.data.reverse.isPrefixOf s.data.reverse

/-- The shadow-column marker appended to historical columns before the join. -/
def pastMark : String := "_past"

/-- Fuel-driven replace-all on character lists; the fuel bounds the scan length. -/
def replaceAllAux (pat rep : List Char) : Nat → List Char → List Char
  | _, [] => []
  | 0, l => l
  | fuel + 1, c :: s =>
    if pat ≠ [] ∧ pat.isPrefixOf (c :: s) then
      rep ++ replaceAllAux pat rep fuel (List.drop pat.length (c :: s))
    else c :: replaceAllAux pat rep fuel s

/-- Python `s.replace(pat, rep)` (replace all occurrences, left to right). -/
def replaceAll (s pat rep : String) : String :=
  ⟨replaceAllAux pat.data rep.data s.data.length s.data⟩

/-- Last character of a string, if any. -/
def strLastChar (s : String) : Option Char := s.data.reverse.head?

/-- Keep the first occurrence of each element (models polars `unique`
/ first-seen dedup, deterministically). -/
def dedupKeepFirst [DecidableEq α] (l : List α) : List α :=
  l.foldl (fun acc a => if a ∈ acc then acc else acc ++ [a]) []

/-- Insert a string into a (sorted) list, preserving order. -/
def insertSorted (s : String) : List String → List String
  | [] => [s]
  | x :: xs => if s < x then s :: x :: xs else x :: insertSorted s xs

/-- Insertion sort on strings (Python `sorted` over a set of names). -/
def sortStrings (l : List String) : List String :=
  l.foldl (fun acc s => insertSorted s acc) []

/-- A row of nulls over the given columns. -/
def nullRow (cols : List String) : Row := cols.map (fun c => (c, Cell.null))

/-- polars join-key match: every key non-null on the left and equal on the
right (null keys never match, `join_nulls=False`). -/
def keyMatch (keys : List String) (lr rr : Row) : Bool :=
  keys.all (fun k => !(getCell lr k).isNull && (getCell lr k == getCell rr k))

/-- Names the right side's columns take in a join output: columns colliding
with a left column (join keys included) get the `_right` suffix. -/
def rightOutCols (lcols rcols : List String) : List String :=
  rcols.map (fun c => if lcols.contains c then c ++ "_right" else c)

/-- Rename a right-side row's entries for the join output. -/
def renameRightRow (lcols : List String) (rr : Row) : Row :=
  rr.map (fun p => (if lcols.contains p.1 then p.1 ++ "_right" else p.1, p.2))

/-- polars `how="full"` outer join on `on=keys`: matched pairs combine, rows
unmatched on either side survive with nulls on the other side's columns. -/
def DF.join (l r : DF) (keys : List String) : DF :=
  { cols := l.cols ++ rightOutCols l.cols r.cols,
    rows :=
      (l.rows.flatMap (fun lr =>
        let ms := r.rows.filter (fun rr => keyMatch keys lr rr)
        if ms.isEmpty then [lr ++ nullRow (rightOutCols l.cols r.cols)]
        else ms.map (fun rr => lr ++ renameRightRow l.cols rr)))
      ++ ((r.rows.filter (fun rr => !(l.rows.any (fun lr => keyMatch keys lr rr)))).map
          (fun rr => nullRow l.cols ++ renameRightRow l.cols rr)) }

/-- polars `how="left"` join on one key column: each left row is kept once per
match (or once with nulls when unmatched); the right key column is dropped. -/
def DF.leftJoinOn (l r : DF) (key : String) : DF :=
  { cols := l.cols ++ rightOutCols l.cols (r.cols.filter (fun c => ¬ c = key)),
    rows := l.rows.flatMap (fun lr =>
      let ms := r.rows.filter (fun rr =>
        !(getCell lr key).isNull && (getCell lr key == getCell rr key))
      if ms.isEmpty then [lr ++ nullRow (rightOutCols l.cols (r.cols.filter (fun c => ¬ c = key)))]
      else ms.map (fun rr => lr ++ renameRightRow l.cols (rr.filter (fun p => ¬ p.1 = key)))) }

/-- polars `DataFrame.select`. -/
def DF.select (df : DF) (cols : List String) : DF :=
  { cols := cols, rows := df.rows.map (fun r => cols.map (fun c => (c, getCell r c))) }

/-- polars `DataFrame.unique()` (distinct rows, first occurrence kept). -/
def DF.uniqueRows (df : DF) : DF :=
  { cols := df.cols, rows := dedupKeepFirst df.rows }

/-- polars `DataFrame.drop_nulls()`: drop every row containing a null. -/
def DF.dropNullRows (df : DF) : DF :=
  { cols := df.cols, rows := df.rows.filter (fun r => r.all (fun p => !p.2.isNull)) }

/-- polars `group_by(key).first()`: one row (the first seen) per distinct key
value, groups in first-occurrence order. -/
def DF.groupFirstBy (df : DF) (key : String) : DF :=
  { cols := df.cols,
    rows := (dedupKeepFirst (df.rows.map (fun r => getCell r key))).map
      (fun v => ((df.rows.filter (fun r => getCell r key = v)).headD [])) }

/-- polars `DataFrame.unique(subset=...)`: first row kept per distinct
value tuple of the subset columns. -/
def DF.uniqueBySubset (df : DF) (subset : List String) : DF :=
  { cols := df.cols,
    rows := df.rows.foldl (fun acc r =>
      if acc.any (fun r' => subset.all (fun c => getCell r' c == getCell r c)) then acc
      else acc ++ [r]) [] }

/-- `ProcessConfig.SALES_PATTERNS`. -/
def salesPatterns : List String := ["売上", "数", "㎡", "粗利", "数量", "金額"]

/-- `ProcessConfig.PRODUCT_JOIN_KEYS`. -/
def productJoinKeys : List String :=
  ["営業所名", "得意先コード", "得意先名", "第1階層", "商品コード", "商品名"]

/-- `DataProcessor.generate_years_list`: year labels from start to end, descending. -/
def generateYearsList (startYear endYear : Nat) : List String :=
  ((List.range (endYear + 1 - startYear)).map (fun i => toString (startYear + i))).reverse

/-- The fixed identity columns `add_past_suffix` always protects from suffixing. -/
def protectedKeys : List String :=
  ["法人コード", "法人名", "得意先コード", "得意先名", "営業所名", "担当者名",
   "第1階層", "商品コード", "商品名"]

/-- `DataProcessor.add_past_suffix` (02_merge_past_data.py, lines 422-460):
suffix every historical column outside the protected set with `_past`. -/
def addPastSuffix (df : DF) (keyColumns : List String) : DF :=
  if df.isEmpty then df
  else
    let allProtectedKeys := protectedKeys ++ keyColumns
    let renameMapping := df.cols.filterMap (fun c =>
      if allProtectedKeys.contains c then none else some (c, c ++ pastMark))
    df.rename renameMapping

/-- `DataProcessor._add_past_suffix` (02_merge_past_data_2Q.py, lines 496-507):
suffix every column, join keys included. -/
def addPastSuffix2Q (df : DF) : DF :=
  df.rename (df.cols.map (fun c => (c, c ++ pastMark)))

/-- The metric suffixes processed for a year: the sales-quantity suffix only
for the current year. -/
def suffixesFor (yearStr currentYearStr : String) : List String :=
  if yearStr = currentYearStr then ["売上数", "㎡", "売上", "粗利"]
  else ["㎡", "売上", "粗利"]

/-- Identity-column pass of `fix_full_join_nulls`: for a `_past` column whose
base name contains no year label, create the base column from the shadow or
fill only its nulls. -/
def idFixOne (yearsList : List String) (df : DF) (pastCol : String) : DF :=
  if yearsList.any (fun y => strHasSub (replaceAll pastCol pastMark "") y) then df
  else if df.cols.contains (replaceAll pastCol pastMark "") then
    df.withColumn (replaceAll pastCol pastMark "") (fun r =>
      if (getCell r (replaceAll pastCol pastMark "")).isNull then getCell r pastCol
      else getCell r (replaceAll pastCol pastMark ""))
  else
    df.withColumn (replaceAll pastCol pastMark "") (fun r => getCell r pastCol)

/-- Year-metric pass of `fix_full_join_nulls` (protective version, lines
496-530): current-year columns are never touched by the shadow (only created
all-null if absent); prior-year columns are created from the shadow when
absent and otherwise only null-filled from it. -/
def yearFixOne (df : DF) (colName pastColName : String) (isCurrentYear : Bool) : DF :=
  if isCurrentYear then
    if df.cols.contains colName then df
    else df.withColumn colName (fun _ => Cell.null)
  else
    if df.cols.contains pastColName then
      if df.cols.contains colName then
        df.withColumn colName (fun r =>
          if (getCell r colName).isNull then getCell r pastColName else getCell r colName)
      else df.withColumn colName (fun r => getCell r pastColName)
    else if df.cols.contains colName then df
    else df.withColumn colName (fun _ => Cell.null)

/-- Year-metric pass of `_fix_full_join_nulls` (2Q version, lines 461-487):
prior-year columns are always overwritten from the shadow when it exists. -/
def yearFixOne2Q (df : DF) (colName pastColName : String) (isCurrentYear : Bool) : DF :=
  if isCurrentYear then
    if df.cols.contains colName then df
    else df.withColumn colName (fun _ => Cell.null)
  else
    if df.cols.contains pastColName then
      df.withColumn colName (fun r => getCell r pastColName)
    else if df.cols.contains colName then df
    else df.withColumn colName (fun _ => Cell.null)

/-- Final pass of both fix functions: drop every shadow column recorded at entry. -/
def dropPastCols (df : DF) (pastCols : List String) : DF :=
  pastCols.foldl (fun d pc => if d.cols.contains pc then d.drop pc else d) df

/-- The identity-column pass over all shadow columns. -/
def idLoop (yearsList pastCols : List String) (df : DF) : DF :=
  pastCols.foldl (idFixOne yearsList) df

/-- The year-metric pass of `fix_full_join_nulls` for one year over a list of
suffixes. -/
def sfxLoop (y cy : String) (sfxs : List String) (df : DF) : DF :=
  sfxs.foldl (fun d' sfx => yearFixOne d' (y ++ sfx) (y ++ sfx ++ pastMark) (y = cy)) df

/-- The year-metric pass of `fix_full_join_nulls` over all years. -/
def yearLoop (cy : String) (ys : List String) (df : DF) : DF :=
  ys.foldl (fun d y => sfxLoop y cy (suffixesFor y cy) d) df

/-- As `sfxLoop`, for the overwriting 2Q variant. -/
def sfxLoop2Q (y cy : String) (sfxs : List String) (df : DF) : DF :=
  sfxs.foldl (fun d' sfx => yearFixOne2Q d' (y ++ sfx) (y ++ sfx ++ pastMark) (y = cy)) df

/-- As `yearLoop`, for the overwriting 2Q variant. -/
def yearLoop2Q (cy : String) (ys : List String) (df : DF) : DF :=
  ys.foldl (fun d y => sfxLoop2Q y cy (suffixesFor y cy) d) df

/-- `DataProcessor.fix_full_join_nulls` (02_merge_past_data.py, lines 462-537). -/
def fixFullJoinNulls (df0 : DF) (yearsList : List String) (currentYearStr : String) : DF :=
  dropPastCols
    (yearLoop currentYearStr yearsList
      (idLoop yearsList (df0.cols.filter (fun c => strEndsWith c pastMark)) df0))
    (df0.cols.filter (fun c => strEndsWith c pastMark))

/-- `DataProcessor._fix_full_join_nulls` (02_merge_past_data_2Q.py, lines 437-494). -/
def fixFullJoinNulls2Q (df0 : DF) (yearsList : List String) (currentYearStr : String) : DF :=
  dropPastCols
    (yearLoop2Q currentYearStr yearsList
      (idLoop yearsList (df0.cols.filter (fun c => strEndsWith c pastMark)) df0))
    (df0.cols.filter (fun c => strEndsWith c pastMark))

/-- A join whose key columns must exist on both sides (polars raises
`ColumnNotFoundError` otherwise, modelled as `none`). -/
def joinChecked (l r : DF) (keys : List String) : Option DF :=
  if keys.all (fun k => l.cols.contains k) && keys.all (fun k => r.cols.contains k) then
    some (DF.join l r keys)
  else none

/-- `DataProcessor.merge_dataframes` (02_merge_past_data.py, lines 539-600):
empty corporate history short-circuits to the current tables; otherwise the
historical tables are suffixed and full-joined per dimension (the product
dimension on the intersection of its configured keys with both sides'
columns), then every table goes through the null fix. -/
def mergeDataframes (df1a df1b df2a df2b df3a df3b : DF)
    (years : List String) (currentYearStr : String) : Option (DF × DF × DF) :=
  if df1b.isEmpty then some (df1a, df2a, df3a)
  else
    match joinChecked df1a (addPastSuffix df1b ["法人コード"]) ["法人コード"],
          joinChecked df2a (addPastSuffix df2b ["得意先コード", "得意先名"])
            ["得意先コード", "得意先名"] with
    | some df1j, some df2j =>
      some (fixFullJoinNulls df1j years currentYearStr,
            fixFullJoinNulls df2j years currentYearStr,
            fixFullJoinNulls
              (if !df3b.isEmpty &&
                  !(productJoinKeys.filter (fun k =>
                      df3a.cols.contains k && df3b.cols.contains k)).isEmpty then
                DF.join df3a (addPastSuffix df3b productJoinKeys)
                  (productJoinKeys.filter (fun k =>
                    df3a.cols.contains k && df3b.cols.contains k))
              else df3a) years currentYearStr)
    | _, _ => none

/-- `DataProcessor.identify_column_types` (lines 718-736). -/
def identifyColumnTypes (df : DF) : List String × List String :=
  let valueCols := df.cols.filter (fun c => salesPatterns.any (fun p => strHasSub c p))
  (df.cols.filter (fun c => ¬ valueCols.contains c), valueCols)

/-- The distinct non-null corporate name-to-code pairs (line 776). -/
def corpMappingBase (df1b : DF) : DF :=
  ((df1b.select ["法人名", "法人コード"]).uniqueRows).dropNullRows

/-- The corporate name-to-code mapping built by `fill_missing_index_columns`
(lines 776-786): distinct non-null pairs; when one name maps to several codes
(duplicate names detected via group counts) the mapping is collapsed to the
first row per name. -/
def corpMapping (df1b : DF) : DF :=
  if ((dedupKeepFirst ((corpMappingBase df1b).rows.map (fun r => getCell r "法人名"))).filter
      (fun n => ((corpMappingBase df1b).rows.map (fun r => getCell r "法人名")).count n > 1)).length
      > 0 then
    (corpMappingBase df1b).groupFirstBy "法人名"
  else corpMappingBase df1b

/-- The corporate backfill join of `fill_missing_index_columns` (lines
789-799): left-join the renamed mapping on the display name, coalesce the
code, drop the helper column. -/
def corpFilled (df1 df1b : DF) : DF :=
  ((df1.leftJoinOn ((corpMapping df1b).rename [("法人コード", "法人コード_補完")])
      "法人名").withColumn "法人コード" (fun r =>
    if (getCell r "法人コード").isNull then getCell r "法人コード_補完"
    else getCell r "法人コード")).drop "法人コード_補完"

/-- Corporate branch of `fill_missing_index_columns` (lines 756-821): backfill
null corporate codes by display name from the historical mapping, then
deduplicate only if the join increased the row count. -/
def corpFill (df1 df1b : DF) : DF :=
  if df1.rows.length > 0 && df1b.rows.length > 0 then
    if df1.cols.contains "法人名" && df1b.cols.contains "法人名"
        && df1b.cols.contains "法人コード" then
      if df1.rows.countP (fun r =>
          (getCell r "法人コード").isNull && !(getCell r "法人名").isNull) > 0 then
        if (corpFilled df1 df1b).rows.length > df1.rows.length then
          if ((corpFilled df1 df1b).uniqueBySubset ["法人コード", "法人名"]).rows.length <
              (corpFilled df1 df1b).rows.length then
            (corpFilled df1 df1b).uniqueBySubset ["法人コード", "法人名"]
          else corpFilled df1 df1b
        else corpFilled df1 df1b
      else df1
    else df1
  else df1

/-- Customer branch of `fill_missing_index_columns` (lines 824-853): same
backfill but the mapping is never collapsed when a name maps to several codes. -/
def custFill (df2 df2b : DF) : DF :=
  if df2.rows.length > 0 && df2b.rows.length > 0 then
    if df2.cols.contains "得意先名" && df2b.cols.contains "得意先名"
        && df2b.cols.contains "得意先コード" then
      let targetCount := df2.rows.countP (fun r =>
        (getCell r "得意先コード").isNull && !(getCell r "得意先名").isNull)
      if targetCount > 0 then
        let pastMapping := ((df2b.select ["得意先名", "得意先コード"]).uniqueRows.dropNullRows).rename
          [("得意先コード", "得意先コード_補完")]
        let df2Filled := df2.leftJoinOn pastMapping "得意先名"
        (df2Filled.withColumn "得意先コード" (fun r =>
          if (getCell r "得意先コード").isNull then getCell r "得意先コード_補完"
          else getCell r "得意先コード")).drop "得意先コード_補完"
      else df2
    else df2
  else df2

/-- `DataProcessor.fill_missing_index_columns` (lines 738-877): empty corporate
history skips everything; the product branch only counts and logs nulls and
never modifies data. -/
def fillMissingIndexColumns (df1 df2 df3 df1b df2b _df3b : DF) : DF × DF × DF :=
  if df1b.isEmpty then (df1, df2, df3)
  else (corpFill df1 df1b, custFill df2 df2b, df3)

/-- The empty `pl.DataFrame()` literal. -/
def emptyDF : DF := { cols := [], rows := [] }

/-- The identity-backfill stage exactly as `main` invokes it (line 1033): the
three historical arguments are fresh empty DataFrames. -/
def pipelineBackfill (df1 df2 df3 : DF) : DF × DF × DF :=
  fillMissingIndexColumns df1 df2 df3 emptyDF emptyDF emptyDF

/-- A totals snapshot entry: the summed value of one metric column in each of
the three dimension tables (corporate, customer, customer-product). -/
structure Tot where
  corp : Int
  cust : Int
  prod : Int
deriving DecidableEq, Repr

/-- One before/after severity comparison of `compare_totals` (lines 149-167):
a difference above 1,000,000 is critical (invalidates), above 100,000 a
warning (counted), otherwise negligible. -/
def severityStep (beforeV afterV : Int) (acc : Bool × Nat) : Bool × Nat :=
  if afterV ≠ beforeV then
    if (afterV - beforeV).natAbs > 1000000 then (false, acc.2 + 1)
    else if (afterV - beforeV).natAbs > 100000 then (acc.1, acc.2 + 1)
    else acc
  else acc

/-- The three sequential before/after comparisons of one column. -/
def colSeverity (before : List (String × Tot)) (acc : Bool × Nat) (c : String)
    (ta : Tot) : Bool × Nat :=
  match List.lookup c before with
  | none => acc
  | some tb =>
    severityStep tb.prod ta.prod (severityStep tb.cust ta.cust
      (severityStep tb.corp ta.corp acc))

/-- The number of pairwise cross-dimension divergences of one column's totals. -/
def crossIssues (ta : Tot) : Nat :=
  (if ta.corp ≠ ta.cust then 1 else 0) + (if ta.cust ≠ ta.prod then 1 else 0)
    + (if ta.corp ≠ ta.prod then 1 else 0)

/-- Per-column body of `compare_totals` (lines 133-200): missing post-merge
data invalidates; before/after differences are classified per dimension; any
cross-dimension divergence is counted and invalidates. -/
def colStep (before after : List (String × Tot)) (acc : Bool × Nat) (c : String) :
    Bool × Nat :=
  match List.lookup c after with
  | none => (false, acc.2 + 1)
  | some ta =>
    if crossIssues ta > 0 then (false, (colSeverity before acc c ta).2 + crossIssues ta)
    else colSeverity before acc c ta

/-- `DataIntegrityValidator.compare_totals` (lines 104-211): walks the sorted
union of metric columns and returns true only when valid with zero issues. -/
def compareTotals (before after : List (String × Tot)) : Bool :=
  if (sortStrings (dedupKeepFirst (before.map Prod.fst ++ after.map Prod.fst))).isEmpty then
    false
  else
    ((sortStrings (dedupKeepFirst (before.map Prod.fst ++ after.map Prod.fst))).foldl
        (colStep before after) (true, 0)).1
      && (((sortStrings (dedupKeepFirst (before.map Prod.fst ++ after.map Prod.fst))).foldl
        (colStep before after) (true, 0)).2 == 0)

/-- Observable outcome of the tail of `main` (lines 1039-1066). -/
structure RunOutcome where
  written : Bool
  exitSuccess : Bool
  integrityOk : Bool
deriving DecidableEq, Repr

/-- Tail of `main` (lines 1039-1066): the integrity result is computed and
logged, `save_data` runs unconditionally, and the function returns normally
(process exit status 0) whatever the verification said. -/
def mainFinal (before after : List (String × Tot)) : RunOutcome :=
  let ok := compareTotals before after
  { written := true, exitSuccess := true, integrityOk := ok }

/-! ### Concrete tables used by witnesses and counterexamples -/

/-- Fiscal years used by concrete witnesses. -/
def yearsW : List String := ["2025", "2024"]

/-- A merged (post-join) corporate table carrying a stale historical shadow
for the current year: the current-year value is 100, the shadow says 999. -/
def dfC2W : DF :=
  { cols := ["法人コード", "2025売上", "2025売上_past", "2024売上_past"],
    rows := [[("法人コード", Cell.str "A"), ("2025売上", Cell.num 100),
              ("2025売上_past", Cell.num 999), ("2024売上_past", Cell.num 50)]] }

/-- One-row current-period corporate table. -/
def dfCur1 : DF :=
  { cols := ["法人コード", "2025売上"],
    rows := [[("法人コード", Cell.str "A"), ("2025売上", Cell.num 10)]] }

/-- One-row historical corporate table. -/
def dfHist1 : DF :=
  { cols := ["法人コード", "2024売上"],
    rows := [[("法人コード", Cell.str "A"), ("2024売上", Cell.num 5)]] }

/-- One-row current-period customer table. -/
def dfCur2 : DF :=
  { cols := ["得意先コード", "得意先名", "2025売上"],
    rows := [[("得意先コード", Cell.str "C1"), ("得意先名", Cell.str "N1"),
              ("2025売上", Cell.num 10)]] }

/-- One-row historical customer table. -/
def dfHist2 : DF :=
  { cols := ["得意先コード", "得意先名", "2024売上"],
    rows := [[("得意先コード", Cell.str "C1"), ("得意先名", Cell.str "N1"),
              ("2024売上", Cell.num 5)]] }

/-- One-row current-period customer-product table. -/
def dfCur3 : DF :=
  { cols := ["営業所名", "得意先コード", "得意先名", "第1階層", "商品コード", "商品名",
             "2025売上"],
    rows := [[("営業所名", Cell.str "O"), ("得意先コード", Cell.str "C1"),
              ("得意先名", Cell.str "N1"), ("第1階層", Cell.str "H"),
              ("商品コード", Cell.str "P1"), ("商品名", Cell.str "PN"),
              ("2025売上", Cell.num 10)]] }

/-- A current corporate table missing the configured corporate join key. -/
def dfNoCorpKey : DF :=
  { cols := ["会社名"], rows := [[("会社名", Cell.str "A")]] }

/-- A historical table with identity columns beside the join key. -/
def dfC6 : DF :=
  { cols := ["法人コード", "法人名", "2024売上"],
    rows := [[("法人コード", Cell.str "A"), ("法人名", Cell.str "甲社"),
              ("2024売上", Cell.num 5)]] }

/-- Pre-merge totals snapshot used by the verifier witness. -/
def beforeTotW : List (String × Tot) := [("2024売上", ⟨100, 100, 100⟩)]

/-- Post-merge totals snapshot with a cross-dimension divergence. -/
def afterTotW : List (String × Tot) := [("2024売上", ⟨100, 50, 100⟩)]

/-- A current customer table with a null code awaiting backfill. -/
def dfC9a : DF :=
  { cols := ["得意先コード", "得意先名", "2025売上"],
    rows := [[("得意先コード", Cell.null), ("得意先名", Cell.str "X"),
              ("2025売上", Cell.num 7)]] }

/-- A historical customer table in which one display name maps to two codes. -/
def dfC9b : DF :=
  { cols := ["得意先コード", "得意先名"],
    rows := [[("得意先コード", Cell.str "K1"), ("得意先名", Cell.str "X")],
             [("得意先コード", Cell.str "K2"), ("得意先名", Cell.str "X")]] }

/-- A merged table holding a non-null prior-year value (70) beside a
differing historical shadow value (5). -/
def dfC3 : DF :=
  { cols := ["2025売上", "2024売上", "2024売上_past"],
    rows := [[("2025売上", Cell.num 9), ("2024売上", Cell.num 70),
              ("2024売上_past", Cell.num 5)]] }

/-- A joined table where the 2024 revenue column and its shadow are both
absent (neither input side carried 2024 revenue). -/
def dfC4 : DF :=
  { cols := ["2025売上"], rows := [[("2025売上", Cell.num 3)]] }

/-- A one-row current corporate table for the conservation check. -/
def dfCurC1 : DF :=
  { cols := ["法人コード", "2025売上"],
    rows := [[("法人コード", Cell.str "A"), ("2025売上", Cell.num 10)]] }

/-- A two-row historical corporate table whose 2024 revenue totals 12; one row
matches the current table's key, the other is unmatched. -/
def dfHistC1 : DF :=
  { cols := ["法人コード", "2024売上"],
    rows := [[("法人コード", Cell.str "A"), ("2024売上", Cell.num 7)],
             [("法人コード", Cell.str "B"), ("2024売上", Cell.num 5)]] }

/-! ### Basic lemmas about rows and columns -/

theorem rowUpdate_cons (a : String) (b : Cell) (r : Row) (c : String) (v : Cell) :
    rowUpdate ((a, b) :: r) c v = (if a = c then (c, v) else (a, b)) :: rowUpdate r c v := rfl

theorem rowErase_cons (a : String) (b : Cell) (r : Row) (c : String) :
    rowErase ((a, b) :: r) c = if a = c then rowErase r c else (a, b) :: rowErase r c := by
  by_cases h : a = c <;> simp [rowErase, List.filter_cons, h]

theorem lookup_cons {β : Type} (a : String) (b : β) (r : List (String × β)) (c : String) :
    List.lookup c ((a, b) :: r) = if a = c then some b else List.lookup c r := by
  by_cases h : a = c
  · simp [List.lookup, h]
  · have hne : ¬ c = a := fun hh => h hh.symm
    have hb : (c == a) = false := by simp [hne]
    simp [List.lookup, hb, h]

theorem lookup_append {β : Type} (r s : List (String × β)) (c : String) :
    List.lookup c (r ++ s) =
      match List.lookup c r with
      | some v => some v
      | none => List.lookup c s := by
  induction r with
  | nil => simp
  | cons p r ih =>
    obtain ⟨a, b⟩ := p
    by_cases h : a = c
    · simp [lookup_cons, h]
    · simp [lookup_cons, h, ih]

theorem lookup_rowUpdate_ne (r : Row) (c c' : String) (v : Cell) (h : c' ≠ c) :
    List.lookup c' (rowUpdate r c v) = List.lookup c' r := by
  induction r with
  | nil => rfl
  | cons p r ih =>
    obtain ⟨a, b⟩ := p
    by_cases ha : a = c
    · subst ha
      have hne : ¬ a = c' := fun hh => h (hh ▸ rfl)
      simp [rowUpdate_cons, lookup_cons, hne, ih]
    · by_cases hc : a = c'
      · subst hc
        simp [rowUpdate_cons, ha, lookup_cons, h]
      · simp [rowUpdate_cons, ha, lookup_cons, hc, ih]

theorem lookup_rowUpdate_self (r : Row) (c : String) (v : Cell) :
    List.lookup c (rowUpdate r c v) = (List.lookup c r).map (fun _ => v) := by
  induction r with
  | nil => rfl
  | cons p r ih =>
    obtain ⟨a, b⟩ := p
    by_cases ha : a = c
    · simp [rowUpdate_cons, ha, lookup_cons]
    · simp [rowUpdate_cons, ha, lookup_cons, ih]

theorem lookup_rowErase_ne (r : Row) (c c' : String) (h : c' ≠ c) :
    List.lookup c' (rowErase r c) = List.lookup c' r := by
  induction r with
  | nil => rfl
  | cons p r ih =>
    obtain ⟨a, b⟩ := p
    rw [rowErase_cons]
    by_cases ha : a = c
    · subst ha
      have hne : ¬ a = c' := fun hh => h (hh ▸ rfl)
      simp [lookup_cons, hne, ih]
    · by_cases hc : a = c'
      · subst hc
        simp [ha, lookup_cons]
      · simp [ha, lookup_cons, hc, ih]

theorem lookup_nullRow (cols : List String) (c : String) :
    List.lookup c (nullRow cols) = if c ∈ cols then some Cell.null else none := by
  induction cols with
  | nil => simp [nullRow]
  | cons x xs ih =>
    have hcons : nullRow (x :: xs) = (x, Cell.null) :: nullRow xs := rfl
    rw [hcons, lookup_cons]
    by_cases h : x = c
    · simp [h]
    · rw [if_neg h, ih]
      have hne : ¬ c = x := fun hh => h hh.symm
      by_cases hm : c ∈ xs
      · simp [hm]
      · simp [hm, hne]

theorem getCell_append_right_none (r s : Row) (c : String)
    (h : List.lookup c r = none) : getCell (r ++ s) c = getCell s c := by
  simp [getCell, lookup_append, h]

theorem getCell_append_left (r s : Row) (c : String) (v : Cell)
    (h : List.lookup c r = some v) : getCell (r ++ s) c = v := by
  simp [getCell, lookup_append, h]

theorem getCell_append_single_self (r : Row) (c : String) (v : Cell)
    (h : List.lookup c r = none) : getCell (r ++ [(c, v)]) c = v := by
  simp [getCell, lookup_append, h, lookup_cons]

theorem getCell_append_single_preserve (r : Row) (c c' : String) (v : Cell)
    (h : c' ≠ c) : getCell (r ++ [(c, v)]) c' = getCell r c' := by
  simp only [getCell, lookup_append]
  cases hl : List.lookup c' r with
  | some w => simp
  | none =>
    have hne : ¬ c = c' := fun hh => h hh.symm
    simp [lookup_cons, hne]

/-! ### Preservation lemmas for `withColumn` and `drop` -/

theorem withColumn_rows_length (df : DF) (c : String) (f : Row → Cell) :
    (df.withColumn c f).rows.length = df.rows.length := by
  unfold DF.withColumn
  split <;> simp

theorem withColumn_map_get_ne (df : DF) (c : String) (f : Row → Cell) (t : String)
    (h : t ≠ c) :
    (df.withColumn c f).rows.map (fun r => getCell r t) =
      df.rows.map (fun r => getCell r t) := by
  unfold DF.withColumn
  split
  · simp only [List.map_map]
    refine List.map_congr_left ?_
    intro r _
    simp [Function.comp, getCell, lookup_rowUpdate_ne _ _ _ _ h]
  · simp only [List.map_map]
    refine List.map_congr_left ?_
    intro r _
    simp [Function.comp, getCell_append_single_preserve _ _ _ _ h]

theorem withColumn_rowsNo (df : DF) (c : String) (f : Row → Cell) (t : String)
    (h : t ≠ c) (hn : RowsNo df t) : RowsNo (df.withColumn c f) t := by
  unfold DF.withColumn
  split
  · intro r hr
    simp only [List.mem_map] at hr
    obtain ⟨r0, hr0, rfl⟩ := hr
    rw [lookup_rowUpdate_ne _ _ _ _ h]
    exact hn r0 hr0
  · intro r hr
    simp only [List.mem_map] at hr
    obtain ⟨r0, hr0, rfl⟩ := hr
    rw [lookup_append, hn r0 hr0]
    have hne : ¬ c = t := fun hh => h hh.symm
    simp [lookup_cons, hne]

theorem withColumn_hasCol (df : DF) (c : String) (f : Row → Cell) (t : String)
    (hn : HasCol df t) : HasCol (df.withColumn c f) t := by
  unfold DF.withColumn
  split
  · intro r hr
    simp only [List.mem_map] at hr
    obtain ⟨r0, hr0, rfl⟩ := hr
    by_cases h : t = c
    · subst h
      rw [lookup_rowUpdate_self]
      simpa using hn r0 hr0
    · rw [lookup_rowUpdate_ne _ _ _ _ h]
      exact hn r0 hr0
  · intro r hr
    simp only [List.mem_map] at hr
    obtain ⟨r0, hr0, rfl⟩ := hr
    rw [lookup_append]
    cases hl : List.lookup t r0 with
    | some w => simp
    | none =>
      have hcontra := hn r0 hr0
      rw [hl] at hcontra
      simp at hcontra

theorem withColumn_mem_cols (df : DF) (c : String) (f : Row → Cell) (t : String)
    (h : t ∈ df.cols) : t ∈ (df.withColumn c f).cols := by
  unfold DF.withColumn
  split
  · exact h
  · simp [h]

theorem withColumn_mem_cols_self (df : DF) (c : String) (f : Row → Cell) :
    c ∈ (df.withColumn c f).cols := by
  unfold DF.withColumn
  split
  · next hc => simpa using hc
  · simp

theorem withColumn_not_mem_cols (df : DF) (c : String) (f : Row → Cell) (t : String)
    (h1 : t ∉ df.cols) (h2 : t ≠ c) : t ∉ (df.withColumn c f).cols := by
  unfold DF.withColumn
  split
  · exact h1
  · simp [h1, h2]

theorem drop_map_get_ne (df : DF) (c : String) (t : String) (h : t ≠ c) :
    (df.drop c).rows.map (fun r => getCell r t) = df.rows.map (fun r => getCell r t) := by
  unfold DF.drop
  simp only [List.map_map]
  refine List.map_congr_left ?_
  intro r _
  simp [Function.comp, getCell, lookup_rowErase_ne _ _ _ h]

theorem drop_rowsNo (df : DF) (c : String) (t : String) (h : t ≠ c)
    (hn : RowsNo df t) : RowsNo (df.drop c) t := by
  intro r hr
  simp only [DF.drop, List.mem_map] at hr
  obtain ⟨r0, hr0, rfl⟩ := hr
  rw [lookup_rowErase_ne _ _ _ h]
  exact hn r0 hr0

theorem drop_hasCol (df : DF) (c : String) (t : String) (h : t ≠ c)
    (hn : HasCol df t) : HasCol (df.drop c) t := by
  intro r hr
  simp only [DF.drop, List.mem_map] at hr
  obtain ⟨r0, hr0, rfl⟩ := hr
  rw [lookup_rowErase_ne _ _ _ h]
  exact hn r0 hr0

theorem drop_mem_cols (df : DF) (c : String) (t : String) (h : t ≠ c)
    (hm : t ∈ df.cols) : t ∈ (df.drop c).cols := by
  simp [DF.drop, List.mem_filter, hm, h]

theorem drop_not_mem_cols (df : DF) (c : String) (t : String)
    (hm : t ∉ df.cols) : t ∉ (df.drop c).cols := by
  simp only [DF.drop, List.mem_filter]
  exact fun hh => hm hh.1

theorem drop_rows_length (df : DF) (c : String) :
    (df.drop c).rows.length = df.rows.length := by
  simp [DF.drop]

/-! ### String-structure lemmas -/

theorem string_eq_of_data (s t : String) (h : s.data = t.data) : s = t := by
  cases s; cases t; exact congrArg String.mk h

theorem isPrefixOf_append_self (l t : List Char) : l.isPrefixOf (l ++ t) = true := by
  induction l with
  | nil => simp [List.isPrefixOf]
  | cons c cs ih => simp [List.isPrefixOf, ih]

theorem hasSubAux_nil_pat (l : List Char) : hasSubAux [] l = true := by
  cases l <;> simp [hasSubAux, List.isPrefixOf]

theorem hasSubAux_self (p t : List Char) : hasSubAux p (p ++ t) = true := by
  cases p with
  | nil => exact hasSubAux_nil_pat t
  | cons c cs =>
    simp only [List.cons_append, hasSubAux, Bool.or_eq_true]
    left
    exact isPrefixOf_append_self (c :: cs) t

theorem strHasSub_append_self (a b : String) : strHasSub (a ++ b) a = true := by
  simp only [strHasSub, String.data_append]
  exact hasSubAux_self a.data b.data

theorem strHasSub_append_append (y b c : String) : strHasSub ((y ++ b) ++ c) y = true := by
  simp only [strHasSub, String.data_append, List.append_assoc]
  exact hasSubAux_self y.data (b.data ++ c.data)

theorem string_append_left_cancel (a b c : String) (h : a ++ b = a ++ c) : b = c := by
  have hd : a.data ++ b.data = a.data ++ c.data := by
    rw [← String.data_append, ← String.data_append, h]
  exact string_eq_of_data _ _ (List.append_cancel_left hd)

theorem string_append_right_cancel (a b c : String) (h : a ++ c = b ++ c) : a = b := by
  have hd : a.data ++ c.data = b.data ++ c.data := by
    rw [← String.data_append, ← String.data_append, h]
  exact string_eq_of_data _ _ (List.append_cancel_right hd)

theorem strLastChar_append (a b : String) (hb : b.data ≠ []) :
    strLastChar (a ++ b) = strLastChar b := by
  simp only [strLastChar, String.data_append, List.reverse_append]
  exact List.head?_append_of_ne_nil _ (by simpa using hb)

theorem isPrefixOf_head (a : Char) (as l : List Char)
    (h : (a :: as).isPrefixOf l = true) : l.head? = some a := by
  cases l with
  | nil => simp [List.isPrefixOf] at h
  | cons b bs =>
    simp only [List.isPrefixOf, Bool.and_eq_true, beq_iff_eq] at h
    simp [h.1]

theorem lastChar_of_endsWithPast (s : String) (h : strEndsWith s pastMark = true) :
    strLastChar s = some 't' := by
  simp only [strEndsWith, pastMark] at h
  exact isPrefixOf_head _ _ _ h

/-- The four metric suffixes, with the quantity suffix. -/
def metricSuffixes : List String := ["売上数", "㎡", "売上", "粗利"]

theorem metricSuffix_lastChar (sfx : String) (h : sfx ∈ metricSuffixes) :
    ∀ y : String, strLastChar (y ++ sfx) = strLastChar sfx := by
  intro y
  apply strLastChar_append
  simp only [metricSuffixes, List.mem_cons, List.not_mem_nil, or_false] at h
  rcases h with rfl | rfl | rfl | rfl <;> decide

theorem metricSuffix_lastChar_ne_t (sfx : String) (h : sfx ∈ metricSuffixes) :
    strLastChar sfx ≠ some 't' := by
  simp only [metricSuffixes, List.mem_cons, List.not_mem_nil, or_false] at h
  rcases h with rfl | rfl | rfl | rfl <;> decide

/-- A year+metric column name never carries the `_past` marker. -/
theorem yearName_not_endsWith_past (y sfx : String) (h : sfx ∈ metricSuffixes) :
    strEndsWith (y ++ sfx) pastMark = false := by
  cases hE : strEndsWith (y ++ sfx) pastMark with
  | false => rfl
  | true =>
    have h1 := lastChar_of_endsWithPast _ hE
    rw [metricSuffix_lastChar sfx h y] at h1
    exact absurd h1 (metricSuffix_lastChar_ne_t sfx h)

/-- A year+metric column name never equals a `_past`-suffixed name. -/
theorem yearName_ne_pastName (y sfx x : String) (h : sfx ∈ metricSuffixes) :
    y ++ sfx ≠ x ++ pastMark := by
  intro hEq
  have h1 : strLastChar (y ++ sfx) = strLastChar (x ++ pastMark) := by rw [hEq]
  rw [metricSuffix_lastChar sfx h y, strLastChar_append x pastMark (by decide)] at h1
  have : strLastChar pastMark = some 't' := by decide
  rw [this] at h1
  exact metricSuffix_lastChar_ne_t sfx h h1

theorem strTail2_append (a b : String) (hb : 2 ≤ b.data.length) :
    (a ++ b).data.reverse.take 2 = b.data.reverse.take 2 := by
  simp only [String.data_append, List.reverse_append]
  exact List.take_append_of_le_length (by simpa using hb)

/-- A `_right`-suffixed join collision name never equals a `_past`-suffixed name. -/
theorem rightName_ne_pastName (a b : String) : a ++ "_right" ≠ b ++ pastMark := by
  intro hEq
  have h1 : (a ++ "_right").data.reverse.take 2 = (b ++ pastMark).data.reverse.take 2 := by
    rw [hEq]
  rw [strTail2_append a "_right" (by decide), strTail2_append b pastMark (by decide)] at h1
  revert h1
  decide

/-! ### Generic fold-preservation lemmas -/

theorem foldl_map_get {α : Type} (step : DF → α → DF) (t : String) (l : List α)
    (h : ∀ x ∈ l, ∀ df : DF, (step df x).rows.map (fun r => getCell r t) =
      df.rows.map (fun r => getCell r t)) :
    ∀ df : DF, (l.foldl step df).rows.map (fun r => getCell r t) =
      df.rows.map (fun r => getCell r t) := by
  induction l with
  | nil => intro df; rfl
  | cons x xs ih =>
    intro df
    rw [List.foldl_cons, ih (fun z hz => h z (by simp [hz])), h x (by simp)]

theorem foldl_rowsNo {α : Type} (step : DF → α → DF) (t : String) (l : List α)
    (h : ∀ x ∈ l, ∀ df : DF, RowsNo df t → RowsNo (step df x) t) :
    ∀ df : DF, RowsNo df t → RowsNo (l.foldl step df) t := by
  induction l with
  | nil => intro df hd; exact hd
  | cons x xs ih =>
    intro df hd
    rw [List.foldl_cons]
    exact ih (fun z hz => h z (by simp [hz])) _ (h x (by simp) df hd)

theorem foldl_hasCol {α : Type} (step : DF → α → DF) (t : String) (l : List α)
    (h : ∀ x ∈ l, ∀ df : DF, HasCol df t → HasCol (step df x) t) :
    ∀ df : DF, HasCol df t → HasCol (l.foldl step df) t := by
  induction l with
  | nil => intro df hd; exact hd
  | cons x xs ih =>
    intro df hd
    rw [List.foldl_cons]
    exact ih (fun z hz => h z (by simp [hz])) _ (h x (by simp) df hd)

theorem foldl_mem_cols {α : Type} (step : DF → α → DF) (t : String) (l : List α)
    (h : ∀ x ∈ l, ∀ df : DF, t ∈ df.cols → t ∈ (step df x).cols) :
    ∀ df : DF, t ∈ df.cols → t ∈ (l.foldl step df).cols := by
  induction l with
  | nil => intro df hd; exact hd
  | cons x xs ih =>
    intro df hd
    rw [List.foldl_cons]
    exact ih (fun z hz => h z (by simp [hz])) _ (h x (by simp) df hd)

theorem foldl_not_mem_cols {α : Type} (step : DF → α → DF) (t : String) (l : List α)
    (h : ∀ x ∈ l, ∀ df : DF, t ∉ df.cols → t ∉ (step df x).cols) :
    ∀ df : DF, t ∉ df.cols → t ∉ (l.foldl step df).cols := by
  induction l with
  | nil => intro df hd; exact hd
  | cons x xs ih =>
    intro df hd
    rw [List.foldl_cons]
    exact ih (fun z hz => h z (by simp [hz])) _ (h x (by simp) df hd)

/-! ### Step lemmas for the null-fix passes -/

theorem idFixOne_target_ne (years : List String) (pc t : String)
    (ht : years.any (fun y => strHasSub t y) = true)
    (hguard : ¬ years.any (fun y => strHasSub (replaceAll pc pastMark "") y) = true) :
    t ≠ replaceAll pc pastMark "" := by
  intro hh
  rw [hh] at ht
  exact hguard ht

theorem idFixOne_map_get (years : List String) (pc t : String)
    (ht : years.any (fun y => strHasSub t y) = true) (df : DF) :
    (idFixOne years df pc).rows.map (fun r => getCell r t) =
      df.rows.map (fun r => getCell r t) := by
  unfold idFixOne
  split
  · rfl
  · next hguard =>
    have hne := idFixOne_target_ne years pc t ht hguard
    split
    · exact withColumn_map_get_ne _ _ _ _ hne
    · exact withColumn_map_get_ne _ _ _ _ hne

theorem idFixOne_rowsNo (years : List String) (pc t : String)
    (ht : years.any (fun y => strHasSub t y) = true) (df : DF)
    (hn : RowsNo df t) : RowsNo (idFixOne years df pc) t := by
  unfold idFixOne
  split
  · exact hn
  · next hguard =>
    have hne := idFixOne_target_ne years pc t ht hguard
    split
    · exact withColumn_rowsNo _ _ _ _ hne hn
    · exact withColumn_rowsNo _ _ _ _ hne hn

theorem idFixOne_hasCol (years : List String) (pc t : String) (df : DF)
    (hn : HasCol df t) : HasCol (idFixOne years df pc) t := by
  unfold idFixOne
  split
  · exact hn
  · split
    · exact withColumn_hasCol _ _ _ _ hn
    · exact withColumn_hasCol _ _ _ _ hn

theorem idFixOne_mem_cols (years : List String) (pc t : String) (df : DF)
    (hm : t ∈ df.cols) : t ∈ (idFixOne years df pc).cols := by
  unfold idFixOne
  split
  · exact hm
  · split
    · exact withColumn_mem_cols _ _ _ _ hm
    · exact withColumn_mem_cols _ _ _ _ hm

theorem idFixOne_not_mem_cols (years : List String) (pc t : String)
    (ht : years.any (fun y => strHasSub t y) = true) (df : DF)
    (hm : t ∉ df.cols) : t ∉ (idFixOne years df pc).cols := by
  unfold idFixOne
  split
  · exact hm
  · next hguard =>
    have hne := idFixOne_target_ne years pc t ht hguard
    split
    · exact withColumn_not_mem_cols _ _ _ _ hm hne
    · exact withColumn_not_mem_cols _ _ _ _ hm hne

theorem yearFixOne_map_get_ne (cn pn : String) (b : Bool) (t : String) (h : t ≠ cn)
    (df : DF) :
    (yearFixOne df cn pn b).rows.map (fun r => getCell r t) =
      df.rows.map (fun r => getCell r t) := by
  unfold yearFixOne
  split
  · split
    · rfl
    · exact withColumn_map_get_ne _ _ _ _ h
  · split
    · split
      · exact withColumn_map_get_ne _ _ _ _ h
      · exact withColumn_map_get_ne _ _ _ _ h
    · split
      · rfl
      · exact withColumn_map_get_ne _ _ _ _ h

theorem yearFixOne2Q_map_get_ne (cn pn : String) (b : Bool) (t : String) (h : t ≠ cn)
    (df : DF) :
    (yearFixOne2Q df cn pn b).rows.map (fun r => getCell r t) =
      df.rows.map (fun r => getCell r t) := by
  unfold yearFixOne2Q
  split
  · split
    · rfl
    · exact withColumn_map_get_ne _ _ _ _ h
  · split
    · exact withColumn_map_get_ne _ _ _ _ h
    · split
      · rfl
      · exact withColumn_map_get_ne _ _ _ _ h

theorem getCell_append_null_self (r : Row) (c : String) :
    getCell (r ++ [(c, Cell.null)]) c = getCell r c := by
  simp only [getCell, lookup_append]
  cases hl : List.lookup c r with
  | some w => simp
  | none => simp [lookup_cons]

theorem yearFixOne_current_map_get (df : DF) (cn pn : String) :
    (yearFixOne df cn pn true).rows.map (fun r => getCell r cn) =
      df.rows.map (fun r => getCell r cn) := by
  unfold yearFixOne
  simp only [if_true]
  split
  · rfl
  · next hc =>
    unfold DF.withColumn
    rw [if_neg hc]
    simp only [List.map_map]
    refine List.map_congr_left ?_
    intro r _
    simp [Function.comp, getCell_append_null_self]

theorem yearFixOne2Q_current_eq (df : DF) (cn pn : String) :
    yearFixOne2Q df cn pn true = yearFixOne df cn pn true := rfl

theorem yearFixOne_rowsNo (cn pn : String) (b : Bool) (t : String) (h : t ≠ cn)
    (df : DF) (hn : RowsNo df t) : RowsNo (yearFixOne df cn pn b) t := by
  unfold yearFixOne
  split
  · split
    · exact hn
    · exact withColumn_rowsNo _ _ _ _ h hn
  · split
    · split
      · exact withColumn_rowsNo _ _ _ _ h hn
      · exact withColumn_rowsNo _ _ _ _ h hn
    · split
      · exact hn
      · exact withColumn_rowsNo _ _ _ _ h hn

theorem yearFixOne2Q_rowsNo (cn pn : String) (b : Bool) (t : String) (h : t ≠ cn)
    (df : DF) (hn : RowsNo df t) : RowsNo (yearFixOne2Q df cn pn b) t := by
  unfold yearFixOne2Q
  split
  · split
    · exact hn
    · exact withColumn_rowsNo _ _ _ _ h hn
  · split
    · exact withColumn_rowsNo _ _ _ _ h hn
    · split
      · exact hn
      · exact withColumn_rowsNo _ _ _ _ h hn

theorem yearFixOne_hasCol (cn pn : String) (b : Bool) (t : String) (df : DF)
    (hn : HasCol df t) : HasCol (yearFixOne df cn pn b) t := by
  unfold yearFixOne
  split
  · split
    · exact hn
    · exact withColumn_hasCol _ _ _ _ hn
  · split
    · split
      · exact withColumn_hasCol _ _ _ _ hn
      · exact withColumn_hasCol _ _ _ _ hn
    · split
      · exact hn
      · exact withColumn_hasCol _ _ _ _ hn

theorem yearFixOne2Q_hasCol (cn pn : String) (b : Bool) (t : String) (df : DF)
    (hn : HasCol df t) : HasCol (yearFixOne2Q df cn pn b) t := by
  unfold yearFixOne2Q
  split
  · split
    · exact hn
    · exact withColumn_hasCol _ _ _ _ hn
  · split
    · exact withColumn_hasCol _ _ _ _ hn
    · split
      · exact hn
      · exact withColumn_hasCol _ _ _ _ hn

theorem yearFixOne_mem_cols (cn pn : String) (b : Bool) (t : String) (df : DF)
    (hm : t ∈ df.cols) : t ∈ (yearFixOne df cn pn b).cols := by
  unfold yearFixOne
  split
  · split
    · exact hm
    · exact withColumn_mem_cols _ _ _ _ hm
  · split
    · split
      · exact withColumn_mem_cols _ _ _ _ hm
      · exact withColumn_mem_cols _ _ _ _ hm
    · split
      · exact hm
      · exact withColumn_mem_cols _ _ _ _ hm

theorem yearFixOne2Q_mem_cols (cn pn : String) (b : Bool) (t : String) (df : DF)
    (hm : t ∈ df.cols) : t ∈ (yearFixOne2Q df cn pn b).cols := by
  unfold yearFixOne2Q
  split
  · split
    · exact hm
    · exact withColumn_mem_cols _ _ _ _ hm
  · split
    · exact withColumn_mem_cols _ _ _ _ hm
    · split
      · exact hm
      · exact withColumn_mem_cols _ _ _ _ hm

theorem yearFixOne_not_mem_cols (cn pn : String) (b : Bool) (t : String) (h : t ≠ cn)
    (df : DF) (hm : t ∉ df.cols) : t ∉ (yearFixOne df cn pn b).cols := by
  unfold yearFixOne
  split
  · split
    · exact hm
    · exact withColumn_not_mem_cols _ _ _ _ hm h
  · split
    · split
      · exact withColumn_not_mem_cols _ _ _ _ hm h
      · exact withColumn_not_mem_cols _ _ _ _ hm h
    · split
      · exact hm
      · exact withColumn_not_mem_cols _ _ _ _ hm h

theorem yearFixOne2Q_not_mem_cols (cn pn : String) (b : Bool) (t : String) (h : t ≠ cn)
    (df : DF) (hm : t ∉ df.cols) : t ∉ (yearFixOne2Q df cn pn b).cols := by
  unfold yearFixOne2Q
  split
  · split
    · exact hm
    · exact withColumn_not_mem_cols _ _ _ _ hm h
  · split
    · exact withColumn_not_mem_cols _ _ _ _ hm h
    · split
      · exact hm
      · exact withColumn_not_mem_cols _ _ _ _ hm h

theorem dropStep_map_get (pc t : String) (h : t ≠ pc) (df : DF) :
    ((if df.cols.contains pc then df.drop pc else df) : DF).rows.map (fun r => getCell r t) =
      df.rows.map (fun r => getCell r t) := by
  split
  · exact drop_map_get_ne _ _ _ h
  · rfl

theorem dropPastCols_map_get (pcs : List String) (t : String)
    (h : ∀ pc ∈ pcs, t ≠ pc) (df : DF) :
    (dropPastCols df pcs).rows.map (fun r => getCell r t) =
      df.rows.map (fun r => getCell r t) := by
  unfold dropPastCols
  exact foldl_map_get _ t pcs (fun pc hpc df' => dropStep_map_get pc t (h pc hpc) df') df

theorem dropPastCols_mem_cols (pcs : List String) (t : String)
    (h : ∀ pc ∈ pcs, t ≠ pc) (df : DF) (hm : t ∈ df.cols) :
    t ∈ (dropPastCols df pcs).cols := by
  unfold dropPastCols
  refine foldl_mem_cols _ t pcs ?_ df hm
  intro pc hpc df' hm'
  split
  · exact drop_mem_cols _ _ _ (h pc hpc) hm'
  · exact hm'

/-! ### The year-metric loops never disturb the current year's columns -/

theorem suffixesFor_self (cy : String) : suffixesFor cy cy = metricSuffixes := by
  simp [suffixesFor, metricSuffixes]

theorem suffixesFor_ne (y cy : String) (h : ¬ y = cy) :
    suffixesFor y cy = ["㎡", "売上", "粗利"] := by
  simp [suffixesFor, h]

theorem mem_suffixesFor_mem_metric (y cy s' : String) (h : s' ∈ suffixesFor y cy) :
    s' ∈ metricSuffixes := by
  by_cases hy : y = cy
  · rwa [hy, suffixesFor_self] at h
  · rw [suffixesFor_ne y cy hy] at h
    simp only [metricSuffixes, List.mem_cons, List.not_mem_nil, or_false] at h ⊢
    tauto

theorem anySub_of_mem (years : List String) (cy sfx : String) (hcy : cy ∈ years) :
    years.any (fun y => strHasSub (cy ++ sfx) y) = true :=
  List.any_eq_true.mpr ⟨cy, hcy, strHasSub_append_self cy sfx⟩

theorem pastCols_ne_target (cols : List String) (t : String)
    (hT : strEndsWith t pastMark = false) :
    ∀ pc ∈ cols.filter (fun c => strEndsWith c pastMark), t ≠ pc := by
  intro pc hpc hEq
  have h1 : strEndsWith pc pastMark = true := by
    simpa using (List.mem_filter.mp hpc).2
  rw [← hEq, hT] at h1
  cases h1

theorem yearFixOne2Q_current_map_get (df : DF) (cn pn : String) :
    (yearFixOne2Q df cn pn true).rows.map (fun r => getCell r cn) =
      df.rows.map (fun r => getCell r cn) := by
  rw [yearFixOne2Q_current_eq]
  exact yearFixOne_current_map_get df cn pn

theorem yearLoop_map_get (years : List String) (cy sfx : String)
    (hsfx : sfx ∈ metricSuffixes)
    (hinj : ∀ y' ∈ years, y' ≠ cy → ∀ s' ∈ metricSuffixes, y' ++ s' ≠ cy ++ sfx)
    (df : DF) :
    (yearLoop cy years df).rows.map (fun r => getCell r (cy ++ sfx)) =
      df.rows.map (fun r => getCell r (cy ++ sfx)) := by
  unfold yearLoop sfxLoop
  refine foldl_map_get _ (cy ++ sfx) years ?_ df
  intro y hy d
  refine foldl_map_get _ (cy ++ sfx) (suffixesFor y cy) ?_ d
  intro s' hs' d'
  by_cases hyc : y = cy
  · subst hyc
    by_cases hss : s' = sfx
    · subst hss
      simp only [eq_self_iff_true, decide_True]
      exact yearFixOne_current_map_get d' (y ++ s') (y ++ s' ++ pastMark)
    · refine yearFixOne_map_get_ne _ _ _ _ ?_ d'
      intro hEq
      exact hss (string_append_left_cancel y sfx s' hEq).symm
  · refine yearFixOne_map_get_ne _ _ _ _ ?_ d'
    intro hEq
    exact hinj y hy hyc s' (mem_suffixesFor_mem_metric y cy s' hs') hEq.symm

theorem yearLoop2Q_map_get (years : List String) (cy sfx : String)
    (hsfx : sfx ∈ metricSuffixes)
    (hinj : ∀ y' ∈ years, y' ≠ cy → ∀ s' ∈ metricSuffixes, y' ++ s' ≠ cy ++ sfx)
    (df : DF) :
    (yearLoop2Q cy years df).rows.map (fun r => getCell r (cy ++ sfx)) =
      df.rows.map (fun r => getCell r (cy ++ sfx)) := by
  unfold yearLoop2Q sfxLoop2Q
  refine foldl_map_get _ (cy ++ sfx) years ?_ df
  intro y hy d
  refine foldl_map_get _ (cy ++ sfx) (suffixesFor y cy) ?_ d
  intro s' hs' d'
  by_cases hyc : y = cy
  · subst hyc
    by_cases hss : s' = sfx
    · subst hss
      simp only [eq_self_iff_true, decide_True]
      exact yearFixOne2Q_current_map_get d' (y ++ s') (y ++ s' ++ pastMark)
    · refine yearFixOne2Q_map_get_ne _ _ _ _ ?_ d'
      intro hEq
      exact hss (string_append_left_cancel y sfx s' hEq).symm
  · refine yearFixOne2Q_map_get_ne _ _ _ _ ?_ d'
    intro hEq
    exact hinj y hy hyc s' (mem_suffixesFor_mem_metric y cy s' hs') hEq.symm

/-- **C2** — Current-year protection: for every metric column of the current
fiscal year, both null-fix passes leave the column's per-row values exactly as
they came out of the join (the current side's values), never overwriting or
null-filling them from the `_past` shadow column, even when they are null. -/
theorem current_year_protection (df : DF) (years : List String) (cy sfx : String)
    (hcy : cy ∈ years) (hsfx : sfx ∈ metricSuffixes)
    (hinj : ∀ y' ∈ years, y' ≠ cy → ∀ s' ∈ metricSuffixes, y' ++ s' ≠ cy ++ sfx) :
    ((fixFullJoinNulls df years cy).rows.map (fun r => getCell r (cy ++ sfx)) =
      df.rows.map (fun r => getCell r (cy ++ sfx)))
    ∧ ((fixFullJoinNulls2Q df years cy).rows.map (fun r => getCell r (cy ++ sfx)) =
      df.rows.map (fun r => getCell r (cy ++ sfx))) := by
  have hid : ∀ d : DF,
      (idLoop years (df.cols.filter (fun c => strEndsWith c pastMark)) d).rows.map
          (fun r => getCell r (cy ++ sfx)) =
        d.rows.map (fun r => getCell r (cy ++ sfx)) := by
    intro d
    unfold idLoop
    refine foldl_map_get _ (cy ++ sfx) _ ?_ d
    intro pc _ d'
    exact idFixOne_map_get years pc (cy ++ sfx) (anySub_of_mem years cy sfx hcy) d'
  have hdrop : ∀ d : DF,
      (dropPastCols d (df.cols.filter (fun c => strEndsWith c pastMark))).rows.map
          (fun r => getCell r (cy ++ sfx)) =
        d.rows.map (fun r => getCell r (cy ++ sfx)) := by
    intro d
    exact dropPastCols_map_get _ (cy ++ sfx)
      (pastCols_ne_target df.cols (cy ++ sfx) (yearName_not_endsWith_past cy sfx hsfx)) d
  constructor
  · show (dropPastCols _ _).rows.map _ = _
    rw [hdrop, yearLoop_map_get years cy sfx hsfx hinj, hid]
  · show (dropPastCols _ _).rows.map _ = _
    rw [hdrop, yearLoop2Q_map_get years cy sfx hsfx hinj, hid]

/-- Witness for C2: on a concrete merged table whose historical shadow holds a
stale current-year value (999) differing from the current one (100), both fix
passes keep the current-year column's values unchanged. -/
theorem current_year_protection_witness :
    ((fixFullJoinNulls dfC2W yearsW "2025").rows.map (fun r => getCell r ("2025" ++ "売上")) =
      dfC2W.rows.map (fun r => getCell r ("2025" ++ "売上")))
    ∧ ((fixFullJoinNulls2Q dfC2W yearsW "2025").rows.map (fun r => getCell r ("2025" ++ "売上")) =
      dfC2W.rows.map (fun r => getCell r ("2025" ++ "売上"))) :=
  current_year_protection dfC2W yearsW "2025" "売上" (by decide) (by decide) (by decide)

/-! ### Rename characterization of the suffixing passes -/

theorem lookup_suffix_map (cols prot : List String) (c : String) :
    List.lookup c (cols.filterMap (fun c' =>
        if prot.contains c' then none else some (c', c' ++ pastMark))) =
      if c ∈ cols ∧ c ∉ prot then some (c ++ pastMark) else none := by
  induction cols with
  | nil => simp
  | cons x xs ih =>
    simp only [List.filterMap_cons]
    by_cases hp : x ∈ prot
    · have hb : prot.contains x = true := by simpa using hp
      simp only [hb, if_true]
      rw [ih]
      by_cases hc : c = x
      · subst hc
        simp [hp]
      · simp [hc]
    · have hb : prot.contains x = false := by simpa using hp
      simp only [hb, Bool.false_eq_true, if_false]
      by_cases hc : x = c
      · subst hc
        have hc2 : (x == x) = true := by simp
        simp [List.lookup, hc2, hp]
      · have hc' : ¬ c = x := fun hh => hc hh.symm
        have hc2 : (c == x) = false := by simp [hc']
        simp only [List.lookup, hc2]
        rw [ih]
        simp [hc']

theorem lookup_all_suffix_map (cols : List String) (c : String) :
    List.lookup c (cols.map (fun c' => (c', c' ++ pastMark))) =
      if c ∈ cols then some (c ++ pastMark) else none := by
  induction cols with
  | nil => simp
  | cons x xs ih =>
    rw [List.map_cons, lookup_cons]
    by_cases hc : x = c
    · subst hc
      simp
    · rw [if_neg hc, ih]
      have hc' : ¬ c = x := fun hh => hc hh.symm
      simp [hc']

theorem addPastSuffix_cols (df : DF) (keys : List String) (h : ¬ df.isEmpty = true) :
    (addPastSuffix df keys).cols = df.cols.map (fun c =>
      if c ∈ protectedKeys ++ keys then c else c ++ pastMark) := by
  unfold addPastSuffix
  rw [if_neg h]
  show df.cols.map (applyRename _) = _
  refine List.map_congr_left ?_
  intro c hc
  unfold applyRename
  rw [lookup_suffix_map]
  by_cases hp : c ∈ protectedKeys ++ keys
  · simp [hp]
  · simp [hp, hc]

theorem addPastSuffix2Q_cols (df : DF) :
    (addPastSuffix2Q df).cols = df.cols.map (fun c => c ++ pastMark) := by
  unfold addPastSuffix2Q
  show df.cols.map (applyRename _) = _
  refine List.map_congr_left ?_
  intro c hc
  unfold applyRename
  rw [lookup_all_suffix_map, if_pos hc]
  rfl

theorem addPastSuffix_mem_iff (df : DF) (keys : List String) (k : String)
    (hk : k ∈ protectedKeys ++ keys)
    (hlast : strLastChar k ≠ some 't') :
    k ∈ (addPastSuffix df keys).cols ↔ k ∈ df.cols := by
  by_cases hE : df.isEmpty = true
  · unfold addPastSuffix
    rw [if_pos hE]
  · rw [addPastSuffix_cols df keys hE]
    constructor
    · intro hm
      obtain ⟨c, hc, hfc⟩ := List.mem_map.mp hm
      by_cases hp : c ∈ protectedKeys ++ keys
      · rw [if_pos hp] at hfc
        exact hfc ▸ hc
      · rw [if_neg hp] at hfc
        exfalso
        apply hlast
        rw [← hfc, strLastChar_append c pastMark (by decide)]
        decide
    · intro hm
      refine List.mem_map.mpr ⟨k, hm, ?_⟩
      rw [if_pos hk]

/-- **C6 (amended)** — Suffixing rule as implemented: in the main script every
historical column outside the protected set (the fixed identity columns plus
the dimension's join keys) gets the `_past` suffix, while protected identity
columns stay unsuffixed even when they are not join keys; in the 2Q script
every column, join keys included, gets the suffix. -/
theorem suffixing_rule_amended (df : DF) (keys : List String) :
    (¬ df.isEmpty = true →
      (addPastSuffix df keys).cols = df.cols.map (fun c =>
        if c ∈ protectedKeys ++ keys then c else c ++ pastMark))
    ∧ (addPastSuffix2Q df).cols = df.cols.map (fun c => c ++ pastMark) :=
  ⟨fun h => addPastSuffix_cols df keys h, addPastSuffix2Q_cols df⟩

/-- Counterexample to C6 as stated: in the corporate dimension the only join
key is the corporate code, yet the historical corporate-name column (not a
join key) is left unsuffixed by `add_past_suffix`; and the 2Q variant
suffixes even the join key itself. -/
theorem suffixing_rule_counterexample :
    "法人名" ∈ (addPastSuffix dfC6 ["法人コード"]).cols
    ∧ ("法人名" ++ pastMark) ∉ (addPastSuffix dfC6 ["法人コード"]).cols
    ∧ ¬ "法人名" = "法人コード"
    ∧ "法人コード" ∉ (addPastSuffix2Q dfC6).cols
    ∧ ("法人コード" ++ pastMark) ∈ (addPastSuffix2Q dfC6).cols := by decide

/-- Witness for the amended C6 on a concrete historical table. -/
theorem suffixing_rule_amended_witness :
    (addPastSuffix dfC6 ["法人コード"]).cols = dfC6.cols.map (fun c =>
        if c ∈ protectedKeys ++ ["法人コード"] then c else c ++ pastMark) :=
  (suffixing_rule_amended dfC6 ["法人コード"]).1 (by decide)

/-! ### C5 — the empty-history short circuit -/

/-- **C5 (amended)** — Empty-historical no-op: when the corporate historical
table is empty, the whole merge short-circuits and returns all three current
tables unchanged. (Emptiness of another dimension's historical table alone
does not make that dimension a no-op.) -/
theorem empty_corporate_history_noop (df1a df1b df2a df2b df3a df3b : DF)
    (years : List String) (cy : String) (h : df1b.isEmpty = true) :
    mergeDataframes df1a df1b df2a df2b df3a df3b years cy = some (df1a, df2a, df3a) := by
  unfold mergeDataframes
  simp [h]

/-- Counterexample to C5 as stated: with a non-empty corporate history but an
empty customer-product history, the merged customer-product table is not the
current table unchanged — the null fix adds absent year columns. -/
theorem empty_history_noop_counterexample :
    (mergeDataframes dfCur1 dfHist1 dfCur2 dfHist2 dfCur3 emptyDF yearsW "2025").map
      (fun t => t.2.2.cols) ≠ some dfCur3.cols := by decide

/-- Witness for the amended C5 at concrete tables. -/
theorem empty_corporate_history_noop_witness :
    mergeDataframes dfCur1 emptyDF dfCur2 dfHist2 dfCur3 emptyDF yearsW "2025" =
      some (dfCur1, dfCur2, dfCur3) :=
  empty_corporate_history_noop dfCur1 emptyDF dfCur2 dfHist2 dfCur3 emptyDF yearsW "2025"
    (by decide)

/-! ### C10 — the identity-backfill stage is a pipeline no-op -/

/-- **C10** — In `main` the identity-backfill stage is invoked with empty
DataFrames as all three historical inputs, and `fill_missing_index_columns`
returns its three tables unchanged whenever the historical corporate table is
empty; hence the stage modifies no table in any actual run. -/
theorem backfill_stage_noop :
    (∀ df1 df2 df3 : DF, pipelineBackfill df1 df2 df3 = (df1, df2, df3))
    ∧ (∀ df1 df2 df3 b1 b2 b3 : DF, b1.isEmpty = true →
        fillMissingIndexColumns df1 df2 df3 b1 b2 b3 = (df1, df2, df3)) := by
  constructor
  · intro df1 df2 df3
    rfl
  · intro df1 df2 df3 b1 b2 b3 h
    unfold fillMissingIndexColumns
    simp [h]

/-- Witness for C10 at concrete tables. -/
theorem backfill_stage_noop_witness :
    fillMissingIndexColumns dfCur1 dfCur2 dfCur3 emptyDF emptyDF emptyDF =
      (dfCur1, dfCur2, dfCur3) :=
  backfill_stage_noop.2 dfCur1 dfCur2 dfCur3 emptyDF emptyDF emptyDF (by decide)

/-! ### C7 — join-key handling per dimension -/

theorem joinChecked_isSome (l r : DF) (keys : List String) :
    (joinChecked l r keys).isSome ↔
      (keys.all (fun k => l.cols.contains k) = true
        ∧ keys.all (fun k => r.cols.contains k) = true) := by
  unfold joinChecked
  split
  · next hc =>
    simp only [Option.isSome_some, true_iff]
    exact Bool.and_eq_true_iff.mp hc
  · next hc =>
    simp only [Option.isSome_none, Bool.false_eq_true, false_iff]
    intro hcontra
    exact hc (by rw [hcontra.1, hcontra.2]; rfl)

theorem productKey_in_suffixed (df3b : DF) (k : String) (hk : k ∈ productJoinKeys)
    (hm : k ∈ df3b.cols) : k ∈ (addPastSuffix df3b productJoinKeys).cols := by
  by_cases hE : df3b.isEmpty = true
  · unfold addPastSuffix
    rw [if_pos hE]
    exact hm
  · rw [addPastSuffix_cols df3b productJoinKeys hE]
    refine List.mem_map.mpr ⟨k, hm, ?_⟩
    rw [if_pos]
    simp only [List.mem_append]
    right
    exact hk

theorem all_contains_pair (cols : List String) (a b : String) :
    ([a, b].all (fun k => cols.contains k) = true) ↔ (a ∈ cols ∧ b ∈ cols) := by
  simp

theorem all_contains_single (cols : List String) (a : String) :
    ([a].all (fun k => cols.contains k) = true) ↔ a ∈ cols := by
  simp

/-- **C7 (amended)** — Join-key degradation holds only for the
customer-product dimension: its join-key set is reduced to the intersection of
the configured keys with the columns present on both sides, and every reduced
key is present on both joined frames (so that join can never fail on a missing
key); but the merge as a whole succeeds if and only if the corporate history
is empty or the fixed corporate and customer join keys are present on both
sides — a missing configured key in those two dimensions does fail the merge. -/
theorem join_key_degradation_amended (df1a df1b df2a df2b df3a df3b : DF)
    (years : List String) (cy : String) :
    ((mergeDataframes df1a df1b df2a df2b df3a df3b years cy).isSome ↔
      (df1b.isEmpty = true ∨
        ("法人コード" ∈ df1a.cols ∧ "法人コード" ∈ df1b.cols
          ∧ "得意先コード" ∈ df2a.cols ∧ "得意先名" ∈ df2a.cols
          ∧ "得意先コード" ∈ df2b.cols ∧ "得意先名" ∈ df2b.cols)))
    ∧ (∀ k ∈ productJoinKeys.filter (fun k =>
          df3a.cols.contains k && df3b.cols.contains k),
        k ∈ df3a.cols ∧ k ∈ (addPastSuffix df3b productJoinKeys).cols) := by
  have h1b : "法人コード" ∈ (addPastSuffix df1b ["法人コード"]).cols ↔
      "法人コード" ∈ df1b.cols :=
    addPastSuffix_mem_iff df1b ["法人コード"] "法人コード" (by decide) (by decide)
  have h2bc : "得意先コード" ∈ (addPastSuffix df2b ["得意先コード", "得意先名"]).cols ↔
      "得意先コード" ∈ df2b.cols :=
    addPastSuffix_mem_iff df2b ["得意先コード", "得意先名"] "得意先コード"
      (by decide) (by decide)
  have h2bn : "得意先名" ∈ (addPastSuffix df2b ["得意先コード", "得意先名"]).cols ↔
      "得意先名" ∈ df2b.cols :=
    addPastSuffix_mem_iff df2b ["得意先コード", "得意先名"] "得意先名"
      (by decide) (by decide)
  constructor
  · by_cases hE : df1b.isEmpty = true
    · rw [empty_corporate_history_noop df1a df1b df2a df2b df3a df3b years cy hE]
      simp [hE]
    · unfold mergeDataframes
      rw [if_neg hE]
      split
      · next df1j df2j h1 h2 =>
        have hs1 := joinChecked_isSome df1a (addPastSuffix df1b ["法人コード"]) ["法人コード"]
        rw [h1] at hs1
        simp only [Option.isSome_some, true_iff] at hs1
        have hc1a : "法人コード" ∈ df1a.cols := (all_contains_single _ _).mp hs1.1
        have hc1b : "法人コード" ∈ df1b.cols := h1b.mp ((all_contains_single _ _).mp hs1.2)
        have hs2 := joinChecked_isSome df2a (addPastSuffix df2b ["得意先コード", "得意先名"])
          ["得意先コード", "得意先名"]
        rw [h2] at hs2
        simp only [Option.isSome_some, true_iff] at hs2
        have hc2a := (all_contains_pair _ _ _).mp hs2.1
        have hc2b := (all_contains_pair _ _ _).mp hs2.2
        simp only [Option.isSome_some, true_iff]
        right
        exact ⟨hc1a, hc1b, hc2a.1, hc2a.2, h2bc.mp hc2b.1, h2bn.mp hc2b.2⟩
      · next x y hno =>
        simp only [Option.isSome_none, Bool.false_eq_true, false_iff, hE, false_or]
        intro hcontra
        have hj1 : (joinChecked df1a (addPastSuffix df1b ["法人コード"]) ["法人コード"]).isSome := by
          rw [joinChecked_isSome, all_contains_single, all_contains_single, h1b]
          exact ⟨hcontra.1, hcontra.2.1⟩
        have hj2 : (joinChecked df2a (addPastSuffix df2b ["得意先コード", "得意先名"])
            ["得意先コード", "得意先名"]).isSome := by
          rw [joinChecked_isSome, all_contains_pair, all_contains_pair, h2bc, h2bn]
          exact ⟨⟨hcontra.2.2.1, hcontra.2.2.2.1⟩,
            ⟨hcontra.2.2.2.2.1, hcontra.2.2.2.2.2⟩⟩
        obtain ⟨d1, hd1⟩ := Option.isSome_iff_exists.mp hj1
        obtain ⟨d2, hd2⟩ := Option.isSome_iff_exists.mp hj2
        exact hno d1 d2 hd1 hd2
  · intro k hk
    have hk' := List.mem_filter.mp hk
    have hmem : k ∈ productJoinKeys := hk'.1
    have hcond := hk'.2
    simp only [Bool.and_eq_true] at hcond
    have hc1 : k ∈ df3a.cols := by simpa using hcond.1
    have hc2 : k ∈ df3b.cols := by simpa using hcond.2
    exact ⟨hc1, productKey_in_suffixed df3b k hmem hc2⟩

/-- Counterexample to C7 as stated: the corporate dimension does not degrade
to the intersection of present join keys — with the corporate code column
missing from the current table, the merge fails (polars raises, modelled as
`none`) instead of completing. -/
theorem join_key_degradation_counterexample :
    mergeDataframes dfNoCorpKey dfHist1 dfCur2 dfHist2 dfCur3 emptyDF yearsW "2025" =
      none := by decide

/-! ### C8 — verifier result and process outcome -/

theorem severityStep_issues_le (bv av : Int) (acc : Bool × Nat) :
    acc.2 ≤ (severityStep bv av acc).2 := by
  unfold severityStep
  split
  · split
    · simp
    · split
      · simp
      · exact le_refl _
  · exact le_refl _

theorem colSeverity_issues_le (before : List (String × Tot)) (acc : Bool × Nat)
    (c : String) (ta : Tot) : acc.2 ≤ (colSeverity before acc c ta).2 := by
  unfold colSeverity
  cases List.lookup c before with
  | none => exact le_refl _
  | some tb =>
    calc acc.2 ≤ (severityStep tb.corp ta.corp acc).2 := severityStep_issues_le _ _ _
      _ ≤ (severityStep tb.cust ta.cust (severityStep tb.corp ta.corp acc)).2 :=
        severityStep_issues_le _ _ _
      _ ≤ _ := severityStep_issues_le _ _ _

theorem colStep_none (before after : List (String × Tot)) (acc : Bool × Nat)
    (c : String) (hl : List.lookup c after = none) :
    colStep before after acc c = (false, acc.2 + 1) := by
  unfold colStep
  rw [hl]

theorem colStep_some (before after : List (String × Tot)) (acc : Bool × Nat)
    (c : String) (ta : Tot) (hl : List.lookup c after = some ta) :
    colStep before after acc c =
      if crossIssues ta > 0 then (false, (colSeverity before acc c ta).2 + crossIssues ta)
      else colSeverity before acc c ta := by
  unfold colStep
  rw [hl]

theorem colStep_issues_le (before after : List (String × Tot)) (acc : Bool × Nat)
    (c : String) : acc.2 ≤ (colStep before after acc c).2 := by
  cases hl : List.lookup c after with
  | none =>
    rw [colStep_none before after acc c hl]
    simp
  | some ta =>
    rw [colStep_some before after acc c ta hl]
    have h1 := colSeverity_issues_le before acc c ta
    split
    · simp only []
      omega
    · exact h1

theorem foldl_colStep_issues_le (before after : List (String × Tot)) (l : List String)
    (acc : Bool × Nat) : acc.2 ≤ (l.foldl (colStep before after) acc).2 := by
  induction l generalizing acc with
  | nil => exact le_refl _
  | cons x xs ih =>
    rw [List.foldl_cons]
    exact le_trans (colStep_issues_le before after acc x) (ih _)

theorem colStep_diverge (before after : List (String × Tot)) (acc : Bool × Nat)
    (c : String) (ta : Tot) (hl : List.lookup c after = some ta)
    (hd : ta.corp ≠ ta.cust) : acc.2 + 1 ≤ (colStep before after acc c).2 := by
  rw [colStep_some before after acc c ta hl]
  have h1 := colSeverity_issues_le before acc c ta
  have hk : crossIssues ta ≥ 1 := by
    unfold crossIssues
    rw [if_pos hd]
    omega
  rw [if_pos (by omega)]
  simp only []
  omega

theorem colStep_bigdiff (before after : List (String × Tot)) (acc : Bool × Nat)
    (c : String) (ta tb : Tot) (hl : List.lookup c after = some ta)
    (hlb : List.lookup c before = some tb)
    (hdiff : (ta.corp - tb.corp).natAbs > 1000000) :
    acc.2 + 1 ≤ (colStep before after acc c).2 := by
  rw [colStep_some before after acc c ta hl]
  have hne : ta.corp ≠ tb.corp := by
    intro hh
    rw [hh] at hdiff
    simp at hdiff
  have hstep1 : (severityStep tb.corp ta.corp acc).2 = acc.2 + 1 := by
    unfold severityStep
    rw [if_pos hne, if_pos hdiff]
  have h2 : acc.2 + 1 ≤ (colSeverity before acc c ta).2 := by
    unfold colSeverity
    rw [hlb]
    calc acc.2 + 1 = (severityStep tb.corp ta.corp acc).2 := hstep1.symm
      _ ≤ (severityStep tb.cust ta.cust (severityStep tb.corp ta.corp acc)).2 :=
        severityStep_issues_le _ _ _
      _ ≤ _ := severityStep_issues_le _ _ _
  split
  · simp only []
    omega
  · exact h2

theorem foldl_colStep_reach (before after : List (String × Tot)) (l : List String)
    (acc : Bool × Nat) (c : String) (hc : c ∈ l)
    (hstep : ∀ acc' : Bool × Nat, acc'.2 + 1 ≤ (colStep before after acc' c).2) :
    acc.2 + 1 ≤ (l.foldl (colStep before after) acc).2 := by
  induction l generalizing acc with
  | nil => cases hc
  | cons x xs ih =>
    rw [List.foldl_cons]
    by_cases hx : x = c
    · subst hx
      have h1 := hstep acc
      have h2 := foldl_colStep_issues_le before after xs (colStep before after acc x)
      omega
    · have hc' : c ∈ xs := by
        cases hc with
        | head => exact absurd rfl hx
        | tail _ h => exact h
      have h1 := colStep_issues_le before after acc x
      have h2 := ih (colStep before after acc x) hc'
      omega

theorem lookup_mem_keys {β : Type} (l : List (String × β)) (c : String) (v : β)
    (h : List.lookup c l = some v) : c ∈ l.map Prod.fst := by
  induction l with
  | nil => cases h
  | cons p l ih =>
    obtain ⟨a, b⟩ := p
    rw [lookup_cons] at h
    by_cases ha : a = c
    · subst ha
      simp
    · rw [if_neg ha] at h
      simp [ih h]

theorem mem_dedup_foldl {α : Type} [DecidableEq α] (l acc : List α) (x : α) :
    x ∈ l.foldl (fun acc a => if a ∈ acc then acc else acc ++ [a]) acc ↔
      x ∈ acc ∨ x ∈ l := by
  induction l generalizing acc with
  | nil => simp
  | cons a l ih =>
    rw [List.foldl_cons, ih]
    by_cases ha : a ∈ acc
    · rw [if_pos ha]
      constructor
      · rintro (h | h)
        · exact Or.inl h
        · exact Or.inr (List.mem_cons_of_mem _ h)
      · rintro (h | h)
        · exact Or.inl h
        · cases List.mem_cons.mp h with
          | inl hh => exact Or.inl (hh ▸ ha)
          | inr hh => exact Or.inr hh
    · rw [if_neg ha]
      simp only [List.mem_append, List.mem_singleton, List.mem_cons]
      tauto

theorem mem_dedupKeepFirst {α : Type} [DecidableEq α] (l : List α) (x : α) :
    x ∈ dedupKeepFirst l ↔ x ∈ l := by
  unfold dedupKeepFirst
  rw [mem_dedup_foldl]
  simp

theorem mem_insertSorted (s x : String) (l : List String) :
    x ∈ insertSorted s l ↔ x = s ∨ x ∈ l := by
  induction l with
  | nil => simp [insertSorted]
  | cons a l ih =>
    unfold insertSorted
    split
    · simp [List.mem_cons]
    · rw [List.mem_cons, ih]
      simp [List.mem_cons]
      tauto

theorem mem_sortStrings_foldl (l acc : List String) (x : String) :
    x ∈ l.foldl (fun acc s => insertSorted s acc) acc ↔ x ∈ acc ∨ x ∈ l := by
  induction l generalizing acc with
  | nil => simp
  | cons a l ih =>
    rw [List.foldl_cons, ih, mem_insertSorted]
    simp [List.mem_cons]
    tauto

theorem mem_sortStrings (l : List String) (x : String) :
    x ∈ sortStrings l ↔ x ∈ l := by
  unfold sortStrings
  rw [mem_sortStrings_foldl]
  simp

theorem compareTotals_false_of_reach (before after : List (String × Tot)) (c : String)
    (hc : c ∈ after.map Prod.fst)
    (hstep : ∀ acc' : Bool × Nat, acc'.2 + 1 ≤ (colStep before after acc' c).2) :
    compareTotals before after = false := by
  unfold compareTotals
  have hcin : c ∈ sortStrings (dedupKeepFirst (before.map Prod.fst ++ after.map Prod.fst)) := by
    rw [mem_sortStrings, mem_dedupKeepFirst, List.mem_append]
    exact Or.inr hc
  split
  · rfl
  · have hge := foldl_colStep_reach before after _ (true, 0) c hcin hstep
    have hne : ((sortStrings (dedupKeepFirst (before.map Prod.fst ++ after.map Prod.fst))).foldl
        (colStep before after) (true, 0)).2 ≠ 0 := by omega
    simp [hne]

/-- **C8 (amended)** — Verifier propagation as implemented: an integrity-check
failure never blocks execution — `save_data` runs and the process finishes with
a success status regardless of the verification result — and `compare_totals`
does return `False` on a cross-dimension divergence or a critical (over one
million) total mismatch, but `main` only logs that result: the process outcome
signalled to the caller does not reflect it. -/
theorem verifier_propagation_amended :
    (∀ before after : List (String × Tot),
      (mainFinal before after).written = true ∧ (mainFinal before after).exitSuccess = true
        ∧ (mainFinal before after).integrityOk = compareTotals before after)
    ∧ (∀ (before after : List (String × Tot)) (c : String) (ta : Tot),
      List.lookup c after = some ta → ta.corp ≠ ta.cust →
        compareTotals before after = false)
    ∧ (∀ (before after : List (String × Tot)) (c : String) (ta tb : Tot),
      List.lookup c after = some ta → List.lookup c before = some tb →
        (ta.corp - tb.corp).natAbs > 1000000 →
        compareTotals before after = false) := by
  refine ⟨fun before after => ⟨rfl, rfl, rfl⟩, ?_, ?_⟩
  · intro before after c ta hl hd
    exact compareTotals_false_of_reach before after c
      (lookup_mem_keys after c ta hl)
      (fun acc' => colStep_diverge before after acc' c ta hl hd)
  · intro before after c ta tb hl hlb hdiff
    exact compareTotals_false_of_reach before after c
      (lookup_mem_keys after c ta hl)
      (fun acc' => colStep_bigdiff before after acc' c ta tb hl hlb hdiff)

/-- Counterexample to C8 as stated: on a concrete cross-dimension divergence
the verifier reports failure, yet the process still writes its output and
signals success to its caller — the outcome does not reflect verification. -/
theorem verifier_propagation_counterexample :
    (mainFinal beforeTotW afterTotW).integrityOk = false
    ∧ (mainFinal beforeTotW afterTotW).exitSuccess = true
    ∧ (mainFinal beforeTotW afterTotW).written = true := by decide

/-- Witness for the amended C8 on the concrete diverging snapshot. -/
theorem verifier_propagation_witness :
    compareTotals beforeTotW afterTotW = false :=
  verifier_propagation_amended.2.1 beforeTotW afterTotW "2024売上" ⟨100, 50, 100⟩
    (by decide) (by decide)

/-! ### C9 — ambiguity resolution in the identity backfill -/

theorem dedup_foldl_nodup {α : Type} [DecidableEq α] (l acc : List α) (h : acc.Nodup) :
    (l.foldl (fun acc a => if a ∈ acc then acc else acc ++ [a]) acc).Nodup := by
  induction l generalizing acc with
  | nil => exact h
  | cons a l ih =>
    rw [List.foldl_cons]
    by_cases ha : a ∈ acc
    · rw [if_pos ha]
      exact ih acc h
    · rw [if_neg ha]
      refine ih _ ?_
      simp [List.nodup_append, h, ha]

theorem dedupKeepFirst_nodup {α : Type} [DecidableEq α] (l : List α) :
    (dedupKeepFirst l).Nodup :=
  dedup_foldl_nodup l [] List.nodup_nil

theorem groupFirstBy_pick (df : DF) (key : String) (v : Cell)
    (hv : v ∈ df.rows.map (fun r => getCell r key)) :
    getCell ((df.rows.filter (fun r => getCell r key = v)).headD []) key = v := by
  obtain ⟨r, hr, hrv⟩ := List.mem_map.mp hv
  have hmem : r ∈ df.rows.filter (fun r => getCell r key = v) :=
    List.mem_filter.mpr ⟨hr, by simp [hrv]⟩
  cases hf : df.rows.filter (fun r => getCell r key = v) with
  | nil =>
    rw [hf] at hmem
    cases hmem
  | cons x xs =>
    have hx : x ∈ df.rows.filter (fun r => getCell r key = v) := by
      rw [hf]
      exact List.mem_cons_self _ _
    have := (List.mem_filter.mp hx).2
    simp only [decide_eq_true_eq] at this
    simpa [hf] using this

theorem groupFirstBy_names (df : DF) (key : String) :
    (df.groupFirstBy key).rows.map (fun r => getCell r key) =
      dedupKeepFirst (df.rows.map (fun r => getCell r key)) := by
  show (List.map _ (List.map _ _)) = _
  rw [List.map_map]
  refine Eq.trans (List.map_congr_left ?_) (List.map_id _)
  intro v hv
  simp only [Function.comp, id]
  exact groupFirstBy_pick df key v ((mem_dedupKeepFirst _ _).mp hv)

theorem groupFirstBy_names_nodup (df : DF) (key : String) :
    ((df.groupFirstBy key).rows.map (fun r => getCell r key)).Nodup := by
  rw [groupFirstBy_names]
  exact dedupKeepFirst_nodup _

theorem corpMapping_names_nodup (df1b : DF) :
    ((corpMapping df1b).rows.map (fun r => getCell r "法人名")).Nodup := by
  unfold corpMapping
  split
  · exact groupFirstBy_names_nodup (corpMappingBase df1b) "法人名"
  · next hlen =>
    have hf : ((dedupKeepFirst ((corpMappingBase df1b).rows.map (fun r => getCell r "法人名"))).filter
        (fun n => ((corpMappingBase df1b).rows.map (fun r => getCell r "法人名")).count n > 1)) = [] := by
      have h0 : ((dedupKeepFirst ((corpMappingBase df1b).rows.map (fun r => getCell r "法人名"))).filter
          (fun n => ((corpMappingBase df1b).rows.map (fun r => getCell r "法人名")).count n > 1)).length = 0 := by
        omega
      exact List.length_eq_zero.mp h0
    rw [List.nodup_iff_count_le_one]
    intro a
    by_cases ha : a ∈ (corpMappingBase df1b).rows.map (fun r => getCell r "法人名")
    · by_contra hcount
      have hgt : ((corpMappingBase df1b).rows.map (fun r => getCell r "法人名")).count a > 1 := by
        omega
      have hin : a ∈ ((dedupKeepFirst ((corpMappingBase df1b).rows.map (fun r => getCell r "法人名"))).filter
          (fun n => ((corpMappingBase df1b).rows.map (fun r => getCell r "法人名")).count n > 1)) :=
        List.mem_filter.mpr ⟨(mem_dedupKeepFirst _ _).mpr ha, by simpa using hgt⟩
      rw [hf] at hin
      cases hin
    · rw [List.count_eq_zero_of_not_mem ha]
      omega

theorem getCell_rename_single (r : Row) (a b c : String) (h1 : c ≠ a) (h2 : c ≠ b) :
    getCell (r.map (fun p => (applyRename [(a, b)] p.1, p.2))) c = getCell r c := by
  induction r with
  | nil => rfl
  | cons p r ih =>
    obtain ⟨x, v⟩ := p
    have happ : applyRename [(a, b)] x = if a = x then b else x := by
      unfold applyRename
      rw [lookup_cons]
      by_cases hax : a = x
      · simp [hax]
      · simp [hax, List.lookup]
    rw [List.map_cons]
    simp only [happ]
    by_cases hax : a = x
    · rw [if_pos hax]
      have hbc : ¬ b = c := fun hh => h2 hh.symm
      have hxc : ¬ x = c := fun hh => h1 (hax.trans hh).symm
      simp only [getCell, lookup_cons, hbc, if_false, hxc]
      exact ih
    · rw [if_neg hax]
      by_cases hxc : x = c
      · simp [getCell, lookup_cons, hxc]
      · simp only [getCell, lookup_cons, hxc, if_false]
        exact ih

theorem filter_match_le_one (rows : List Row) (key : String) (v : Cell)
    (hnd : (rows.map (fun r => getCell r key)).Nodup) :
    (rows.filter (fun rr => !v.isNull && (v == getCell rr key))).length ≤ 1 := by
  induction rows with
  | nil => simp
  | cons r rows ih =>
    rw [List.map_cons, List.nodup_cons] at hnd
    rw [List.filter_cons]
    by_cases hp : (!v.isNull && (v == getCell r key)) = true
    · rw [if_pos hp]
      have hv : v = getCell r key := by
        have := (Bool.and_eq_true_iff.mp hp).2
        exact eq_of_beq this
      have hempty : rows.filter (fun rr => !v.isNull && (v == getCell rr key)) = [] := by
        rw [List.filter_eq_nil_iff]
        intro rr hrr
        simp only [Bool.and_eq_true, beq_iff_eq, not_and]
        intro _ hveq
        exact hnd.1 (List.mem_map.mpr ⟨rr, hrr, by rw [← hveq, hv]⟩)
      rw [hempty]
      simp
    · rw [if_neg hp]
      exact ih hnd.2

theorem sum_map_one {α : Type} (l : List α) : (l.map (fun _ => (1 : Nat))).sum = l.length := by
  induction l with
  | nil => rfl
  | cons a l ih =>
    simp [ih]
    omega

theorem leftJoinOn_length (l r : DF) (key : String)
    (hnd : (r.rows.map (fun rr => getCell rr key)).Nodup) :
    (l.leftJoinOn r key).rows.length = l.rows.length := by
  show (l.rows.flatMap _).length = _
  rw [List.length_flatMap]
  refine Eq.trans (congrArg List.sum (List.map_congr_left ?_)) (sum_map_one l.rows)
  intro lr _
  simp only [Function.comp]
  by_cases hms : (r.rows.filter (fun rr =>
      !(getCell lr key).isNull && (getCell lr key == getCell rr key))).isEmpty = true
  · simp [hms]
  · have hle := filter_match_le_one r.rows key (getCell lr key) hnd
    have hpos : (r.rows.filter (fun rr =>
        !(getCell lr key).isNull && (getCell lr key == getCell rr key))).length ≠ 0 := by
      intro hh
      exact hms (by rw [List.isEmpty_iff, ← List.length_eq_zero]; exact hh)
    simp only [hms, Bool.false_eq_true, if_false, List.length_map]
    omega

theorem renamed_mapping_names (df1b : DF) :
    (((corpMapping df1b).rename [("法人コード", "法人コード_補完")]).rows.map
        (fun r => getCell r "法人名")) =
      (corpMapping df1b).rows.map (fun r => getCell r "法人名") := by
  show (List.map _ (corpMapping df1b).rows).map _ = _
  rw [List.map_map]
  refine List.map_congr_left ?_
  intro r _
  simp only [Function.comp]
  exact getCell_rename_single r "法人コード" "法人コード_補完" "法人名" (by decide) (by decide)

theorem corpFilled_length (df1 df1b : DF) :
    (corpFilled df1 df1b).rows.length = df1.rows.length := by
  unfold corpFilled
  rw [drop_rows_length, withColumn_rows_length]
  apply leftJoinOn_length
  rw [renamed_mapping_names]
  exact corpMapping_names_nodup df1b

/-- **C9 (amended)** — Ambiguity resolution as implemented: only the corporate
backfill collapses a display name mapping to several codes — its mapping keeps
exactly one (first-seen) row per name, so the backfill join assigns at most one
fill value per row and never changes the corporate row count; the customer
backfill builds its mapping without collapsing duplicates and can multiply
rows; the customer-product backfill only counts nulls and returns that table
unchanged. -/
theorem join_key_ambiguity_amended :
    (∀ df1b : DF, ((corpMapping df1b).rows.map (fun r => getCell r "法人名")).Nodup)
    ∧ (∀ df1 df1b : DF, (corpFill df1 df1b).rows.length = df1.rows.length)
    ∧ (∀ df1 df2 df3 b1 b2 b3 : DF,
        (fillMissingIndexColumns df1 df2 df3 b1 b2 b3).2.2 = df3) := by
  refine ⟨corpMapping_names_nodup, ?_, ?_⟩
  · intro df1 df1b
    unfold corpFill
    split
    · split
      · split
        · split
          · next hgt =>
            exfalso
            rw [corpFilled_length] at hgt
            omega
          · exact corpFilled_length df1 df1b
        · rfl
      · rfl
    · rfl
  · intro df1 df2 df3 b1 b2 b3
    unfold fillMissingIndexColumns
    split <;> rfl

/-- Counterexample to C9 as stated: the customer backfill does not resolve a
duplicate historical key — with one display name mapping to two codes, the
left join assigns two fill values and multiplies the single current row. -/
theorem join_key_ambiguity_counterexample :
    (custFill dfC9a dfC9b).rows.length = 2 ∧ dfC9a.rows.length = 1 := by decide

/-! ### Loop-stage preservation bundles -/

theorem sfxLoop_pres (y cy : String) (l : List String) (t : String)
    (h : ∀ s' ∈ l, t ≠ y ++ s') :
    (∀ d : DF, (sfxLoop y cy l d).rows.map (fun r => getCell r t) =
        d.rows.map (fun r => getCell r t))
    ∧ (∀ d : DF, HasCol d t → HasCol (sfxLoop y cy l d) t)
    ∧ (∀ d : DF, t ∈ d.cols → t ∈ (sfxLoop y cy l d).cols)
    ∧ (∀ d : DF, t ∉ d.cols → t ∉ (sfxLoop y cy l d).cols) := by
  unfold sfxLoop
  exact ⟨foldl_map_get _ t l (fun s' hs' d' => yearFixOne_map_get_ne _ _ _ _ (h s' hs') d'),
    foldl_hasCol _ t l (fun s' hs' d' hd => yearFixOne_hasCol _ _ _ _ d' hd),
    foldl_mem_cols _ t l (fun s' hs' d' hm => yearFixOne_mem_cols _ _ _ _ d' hm),
    foldl_not_mem_cols _ t l (fun s' hs' d' hm =>
      yearFixOne_not_mem_cols _ _ _ _ (h s' hs') d' hm)⟩

theorem yearLoop_pres (cy : String) (ys : List String) (t : String)
    (h : ∀ y' ∈ ys, ∀ s' ∈ suffixesFor y' cy, t ≠ y' ++ s') :
    (∀ d : DF, (yearLoop cy ys d).rows.map (fun r => getCell r t) =
        d.rows.map (fun r => getCell r t))
    ∧ (∀ d : DF, HasCol d t → HasCol (yearLoop cy ys d) t)
    ∧ (∀ d : DF, t ∈ d.cols → t ∈ (yearLoop cy ys d).cols)
    ∧ (∀ d : DF, t ∉ d.cols → t ∉ (yearLoop cy ys d).cols) := by
  unfold yearLoop
  refine ⟨foldl_map_get _ t ys ?_, foldl_hasCol _ t ys ?_,
    foldl_mem_cols _ t ys ?_, foldl_not_mem_cols _ t ys ?_⟩
  · intro y' hy' d
    exact (sfxLoop_pres y' cy _ t (h y' hy')).1 d
  · intro y' hy' d hd
    exact (sfxLoop_pres y' cy _ t (h y' hy')).2.1 d hd
  · intro y' hy' d hm
    exact (sfxLoop_pres y' cy _ t (h y' hy')).2.2.1 d hm
  · intro y' hy' d hm
    exact (sfxLoop_pres y' cy _ t (h y' hy')).2.2.2 d hm

theorem sfxLoop2Q_pres (y cy : String) (l : List String) (t : String)
    (h : ∀ s' ∈ l, t ≠ y ++ s') :
    (∀ d : DF, (sfxLoop2Q y cy l d).rows.map (fun r => getCell r t) =
        d.rows.map (fun r => getCell r t))
    ∧ (∀ d : DF, HasCol d t → HasCol (sfxLoop2Q y cy l d) t)
    ∧ (∀ d : DF, t ∈ d.cols → t ∈ (sfxLoop2Q y cy l d).cols)
    ∧ (∀ d : DF, t ∉ d.cols → t ∉ (sfxLoop2Q y cy l d).cols) := by
  unfold sfxLoop2Q
  exact ⟨foldl_map_get _ t l (fun s' hs' d' => yearFixOne2Q_map_get_ne _ _ _ _ (h s' hs') d'),
    foldl_hasCol _ t l (fun s' hs' d' hd => yearFixOne2Q_hasCol _ _ _ _ d' hd),
    foldl_mem_cols _ t l (fun s' hs' d' hm => yearFixOne2Q_mem_cols _ _ _ _ d' hm),
    foldl_not_mem_cols _ t l (fun s' hs' d' hm =>
      yearFixOne2Q_not_mem_cols _ _ _ _ (h s' hs') d' hm)⟩

theorem yearLoop2Q_pres (cy : String) (ys : List String) (t : String)
    (h : ∀ y' ∈ ys, ∀ s' ∈ suffixesFor y' cy, t ≠ y' ++ s') :
    (∀ d : DF, (yearLoop2Q cy ys d).rows.map (fun r => getCell r t) =
        d.rows.map (fun r => getCell r t))
    ∧ (∀ d : DF, HasCol d t → HasCol (yearLoop2Q cy ys d) t)
    ∧ (∀ d : DF, t ∈ d.cols → t ∈ (yearLoop2Q cy ys d).cols)
    ∧ (∀ d : DF, t ∉ d.cols → t ∉ (yearLoop2Q cy ys d).cols) := by
  unfold yearLoop2Q
  refine ⟨foldl_map_get _ t ys ?_, foldl_hasCol _ t ys ?_,
    foldl_mem_cols _ t ys ?_, foldl_not_mem_cols _ t ys ?_⟩
  · intro y' hy' d
    exact (sfxLoop2Q_pres y' cy _ t (h y' hy')).1 d
  · intro y' hy' d hd
    exact (sfxLoop2Q_pres y' cy _ t (h y' hy')).2.1 d hd
  · intro y' hy' d hm
    exact (sfxLoop2Q_pres y' cy _ t (h y' hy')).2.2.1 d hm
  · intro y' hy' d hm
    exact (sfxLoop2Q_pres y' cy _ t (h y' hy')).2.2.2 d hm

theorem idLoop_pres (years pcs : List String) (t : String)
    (ht : years.any (fun y => strHasSub t y) = true) :
    (∀ d : DF, (idLoop years pcs d).rows.map (fun r => getCell r t) =
        d.rows.map (fun r => getCell r t))
    ∧ (∀ d : DF, HasCol d t → HasCol (idLoop years pcs d) t)
    ∧ (∀ d : DF, t ∈ d.cols → t ∈ (idLoop years pcs d).cols)
    ∧ (∀ d : DF, t ∉ d.cols → t ∉ (idLoop years pcs d).cols) := by
  unfold idLoop
  exact ⟨foldl_map_get _ t pcs (fun pc _ d' => idFixOne_map_get years pc t ht d'),
    foldl_hasCol _ t pcs (fun pc _ d' hd => idFixOne_hasCol years pc t d' hd),
    foldl_mem_cols _ t pcs (fun pc _ d' hm => idFixOne_mem_cols years pc t d' hm),
    foldl_not_mem_cols _ t pcs (fun pc _ d' hm => idFixOne_not_mem_cols years pc t ht d' hm)⟩

/-! ### The fill and overwrite steps of the year-metric pass -/

theorem yearFixOne_fill_map_get (df : DF) (cn pn : String)
    (hcn : cn ∈ df.cols) (hpn : pn ∈ df.cols) (hv : HasCol df cn) :
    (yearFixOne df cn pn false).rows.map (fun r => getCell r cn) =
      df.rows.map (fun r =>
        if (getCell r cn).isNull then getCell r pn else getCell r cn) := by
  have hcnb : df.cols.contains cn = true := by simpa using hcn
  have hpnb : df.cols.contains pn = true := by simpa using hpn
  unfold yearFixOne
  simp only [Bool.false_eq_true, if_false, hpnb, if_true, hcnb]
  unfold DF.withColumn
  rw [if_pos hcnb]
  simp only [List.map_map]
  refine List.map_congr_left ?_
  intro r hr
  simp only [Function.comp]
  show getCell (rowUpdate r cn _) cn = _
  unfold getCell
  rw [lookup_rowUpdate_self]
  cases hl : List.lookup cn r with
  | none =>
    have := hv r hr
    rw [hl] at this
    simp at this
  | some w => simp [getCell]

theorem yearFixOne2Q_overwrite_map_get (df : DF) (cn pn : String)
    (hcn : cn ∈ df.cols) (hpn : pn ∈ df.cols) (hv : HasCol df cn) :
    (yearFixOne2Q df cn pn false).rows.map (fun r => getCell r cn) =
      df.rows.map (fun r => getCell r pn) := by
  have hcnb : df.cols.contains cn = true := by simpa using hcn
  have hpnb : df.cols.contains pn = true := by simpa using hpn
  unfold yearFixOne2Q
  simp only [Bool.false_eq_true, if_false, hpnb, if_true]
  unfold DF.withColumn
  rw [if_pos hcnb]
  simp only [List.map_map]
  refine List.map_congr_left ?_
  intro r hr
  simp only [Function.comp]
  show getCell (rowUpdate r cn _) cn = _
  unfold getCell
  rw [lookup_rowUpdate_self]
  cases hl : List.lookup cn r with
  | none =>
    have := hv r hr
    rw [hl] at this
    simp at this
  | some w => simp [getCell]

theorem map_congr_two {α : Type} (l1 l2 : List α) (g h : α → Cell) (F : Cell → Cell → Cell)
    (h1 : l1.map g = l2.map g) (h2 : l1.map h = l2.map h) :
    l1.map (fun x => F (g x) (h x)) = l2.map (fun x => F (g x) (h x)) := by
  induction l1 generalizing l2 with
  | nil =>
    have hnil : l2.map g = [] := h1.symm
    rw [List.map_eq_nil_iff] at hnil
    rw [hnil]
  | cons a l1 ih =>
    cases l2 with
    | nil => simp at h1
    | cons b l2 =>
      simp only [List.map_cons, List.cons.injEq] at h1 h2 ⊢
      exact ⟨by rw [h1.1, h2.1], ih l2 h1.2 h2.2⟩

theorem split_of_mem_nodup {α : Type} [DecidableEq α] (l : List α) (a : α)
    (ha : a ∈ l) (hnd : l.Nodup) :
    ∃ s t, l = s ++ a :: t ∧ a ∉ s ∧ a ∉ t := by
  obtain ⟨s, t, rfl⟩ := List.append_of_mem ha
  rw [List.nodup_append] at hnd
  refine ⟨s, t, rfl, ?_, ?_⟩
  · intro hs
    exact hnd.2.2 hs (List.mem_cons_self a t)
  · have h2 := hnd.2.1
    rw [List.nodup_cons] at h2
    exact h2.1

theorem mem3_metric (sfx : String) (h : sfx ∈ ["㎡", "売上", "粗利"]) :
    sfx ∈ metricSuffixes := by
  simp only [List.mem_cons, List.not_mem_nil, or_false] at h
  simp only [metricSuffixes, List.mem_cons, List.not_mem_nil, or_false]
  tauto

/-! ### C3 — the two prior-year reconciliation policies -/

/-- **C3 (amended)** — Both prior-year reconciliation policies exist in the
repository, but not behind a configuration flag: the main script's
`fix_full_join_nulls` is protective — a prior-year metric column is only
null-filled from its `_past` shadow, never overwritten — while the 2Q script's
`_fix_full_join_nulls` is authoritative — the shadow value always replaces the
prior-year column. Which policy applies is decided by which script runs, not
by a flag, and the main (protective) script is the one producing the pipeline
output. -/
theorem policy_pair_amended (df : DF) (years : List String) (cy y sfx : String)
    (hnd : years.Nodup) (hy : y ∈ years) (hyc : y ≠ cy)
    (hsfx : sfx ∈ ["㎡", "売上", "粗利"])
    (hc : (y ++ sfx) ∈ df.cols) (hcp : (y ++ sfx ++ pastMark) ∈ df.cols)
    (hv : HasCol df (y ++ sfx))
    (hinj : ∀ y' ∈ years, ∀ s' ∈ metricSuffixes, y' ++ s' = y ++ sfx → y' = y ∧ s' = sfx) :
    ((fixFullJoinNulls df years cy).rows.map (fun r => getCell r (y ++ sfx)) =
      df.rows.map (fun r => if (getCell r (y ++ sfx)).isNull
        then getCell r (y ++ sfx ++ pastMark) else getCell r (y ++ sfx)))
    ∧ ((fixFullJoinNulls2Q df years cy).rows.map (fun r => getCell r (y ++ sfx)) =
      df.rows.map (fun r => getCell r (y ++ sfx ++ pastMark))) := by
  have hsfxM : sfx ∈ metricSuffixes := mem3_metric sfx hsfx
  obtain ⟨ys1, ys2, hsplit, hy1, hy2⟩ := split_of_mem_nodup years y hy hnd
  have hsfx' : sfx ∈ suffixesFor y cy := by
    rw [suffixesFor_ne y cy hyc]
    exact hsfx
  have hndsfx : (suffixesFor y cy).Nodup := by
    rw [suffixesFor_ne y cy hyc]
    decide
  obtain ⟨u, v, husplit, hu, hv2⟩ := split_of_mem_nodup (suffixesFor y cy) sfx hsfx' hndsfx
  have hflag : decide (y = cy) = false := by simp [hyc]
  have htA : years.any (fun y' => strHasSub (y ++ sfx) y') = true :=
    List.any_eq_true.mpr ⟨y, hy, strHasSub_append_self y sfx⟩
  have htpA : years.any (fun y' => strHasSub (y ++ sfx ++ pastMark) y') = true :=
    List.any_eq_true.mpr ⟨y, hy, strHasSub_append_append y sfx pastMark⟩
  have hys1 : ∀ y' ∈ ys1, y' ∈ years := by
    intro y' hy'
    rw [hsplit]
    exact List.mem_append.mpr (Or.inl hy')
  have hys2 : ∀ y' ∈ ys2, y' ∈ years := by
    intro y' hy'
    rw [hsplit]
    exact List.mem_append.mpr (Or.inr (List.mem_cons_of_mem _ hy'))
  have h1t : ∀ y' ∈ ys1, ∀ s' ∈ suffixesFor y' cy, (y ++ sfx) ≠ y' ++ s' := by
    intro y' hy' s' hs' hEq
    have hh := hinj y' (hys1 y' hy') s' (mem_suffixesFor_mem_metric y' cy s' hs') hEq.symm
    exact hy1 (hh.1 ▸ hy')
  have h2t : ∀ y' ∈ ys2, ∀ s' ∈ suffixesFor y' cy, (y ++ sfx) ≠ y' ++ s' := by
    intro y' hy' s' hs' hEq
    have hh := hinj y' (hys2 y' hy') s' (mem_suffixesFor_mem_metric y' cy s' hs') hEq.symm
    exact hy2 (hh.1 ▸ hy')
  have h1tp : ∀ y' ∈ ys1, ∀ s' ∈ suffixesFor y' cy, (y ++ sfx ++ pastMark) ≠ y' ++ s' := by
    intro y' hy' s' hs' hEq
    exact yearName_ne_pastName y' s' (y ++ sfx)
      (mem_suffixesFor_mem_metric y' cy s' hs') hEq.symm
  have hmemu : ∀ s' ∈ u, s' ∈ suffixesFor y cy := by
    intro s' hs'
    rw [husplit]
    exact List.mem_append.mpr (Or.inl hs')
  have hmemv : ∀ s' ∈ v, s' ∈ suffixesFor y cy := by
    intro s' hs'
    rw [husplit]
    exact List.mem_append.mpr (Or.inr (List.mem_cons_of_mem _ hs'))
  have hut : ∀ s' ∈ u, (y ++ sfx) ≠ y ++ s' := by
    intro s' hs' hEq
    apply hu
    rw [string_append_left_cancel y sfx s' hEq]
    exact hs'
  have hvt : ∀ s' ∈ v, (y ++ sfx) ≠ y ++ s' := by
    intro s' hs' hEq
    apply hv2
    rw [string_append_left_cancel y sfx s' hEq]
    exact hs'
  have hutp : ∀ s' ∈ u, (y ++ sfx ++ pastMark) ≠ y ++ s' := by
    intro s' hs' hEq
    exact yearName_ne_pastName y s' (y ++ sfx)
      (mem_suffixesFor_mem_metric y cy s' (hmemu s' hs')) hEq.symm
  have hdropne : ∀ pc ∈ df.cols.filter (fun c => strEndsWith c pastMark), (y ++ sfx) ≠ pc :=
    pastCols_ne_target df.cols (y ++ sfx) (yearName_not_endsWith_past y sfx hsfxM)
  have hId := idLoop_pres years (df.cols.filter (fun c => strEndsWith c pastMark))
    (y ++ sfx) htA
  have hIdp := idLoop_pres years (df.cols.filter (fun c => strEndsWith c pastMark))
    (y ++ sfx ++ pastMark) htpA
  constructor
  · have hY1 := yearLoop_pres cy ys1 (y ++ sfx) h1t
    have hY1p := yearLoop_pres cy ys1 (y ++ sfx ++ pastMark) h1tp
    have hU := sfxLoop_pres y cy u (y ++ sfx) hut
    have hUp := sfxLoop_pres y cy u (y ++ sfx ++ pastMark) hutp
    have hY2 := yearLoop_pres cy ys2 (y ++ sfx) h2t
    have hV := sfxLoop_pres y cy v (y ++ sfx) hvt
    have hyearloopEq : ∀ d : DF, yearLoop cy years d =
        yearLoop cy ys2 (sfxLoop y cy (suffixesFor y cy) (yearLoop cy ys1 d)) := by
      intro d
      rw [hsplit]
      unfold yearLoop
      rw [List.foldl_append, List.foldl_cons]
    have hsfxloopEq : ∀ d : DF, sfxLoop y cy (suffixesFor y cy) d =
        sfxLoop y cy v (yearFixOne (sfxLoop y cy u d) (y ++ sfx) (y ++ sfx ++ pastMark)
          (decide (y = cy))) := by
      intro d
      rw [husplit]
      unfold sfxLoop
      rw [List.foldl_append, List.foldl_cons]
    have hBt : (sfxLoop y cy u (yearLoop cy ys1 (idLoop years
        (df.cols.filter (fun c => strEndsWith c pastMark)) df))).rows.map
          (fun r => getCell r (y ++ sfx)) =
        df.rows.map (fun r => getCell r (y ++ sfx)) := by
      rw [hU.1, hY1.1, hId.1]
    have hBtp : (sfxLoop y cy u (yearLoop cy ys1 (idLoop years
        (df.cols.filter (fun c => strEndsWith c pastMark)) df))).rows.map
          (fun r => getCell r (y ++ sfx ++ pastMark)) =
        df.rows.map (fun r => getCell r (y ++ sfx ++ pastMark)) := by
      rw [hUp.1, hY1p.1, hIdp.1]
    have hBmem : (y ++ sfx) ∈ (sfxLoop y cy u (yearLoop cy ys1 (idLoop years
        (df.cols.filter (fun c => strEndsWith c pastMark)) df))).cols :=
      hU.2.2.1 _ (hY1.2.2.1 _ (hId.2.2.1 _ hc))
    have hBmemp : (y ++ sfx ++ pastMark) ∈ (sfxLoop y cy u (yearLoop cy ys1 (idLoop years
        (df.cols.filter (fun c => strEndsWith c pastMark)) df))).cols :=
      hUp.2.2.1 _ (hY1p.2.2.1 _ (hIdp.2.2.1 _ hcp))
    have hBhas : HasCol (sfxLoop y cy u (yearLoop cy ys1 (idLoop years
        (df.cols.filter (fun c => strEndsWith c pastMark)) df))) (y ++ sfx) :=
      hU.2.1 _ (hY1.2.1 _ (hId.2.1 _ hv))
    show (dropPastCols (yearLoop cy years (idLoop years
        (df.cols.filter (fun c => strEndsWith c pastMark)) df))
        (df.cols.filter (fun c => strEndsWith c pastMark))).rows.map
          (fun r => getCell r (y ++ sfx)) = _
    rw [dropPastCols_map_get _ (y ++ sfx) hdropne, hyearloopEq, hY2.1, hsfxloopEq, hflag,
      hV.1, yearFixOne_fill_map_get _ _ _ hBmem hBmemp hBhas]
    exact map_congr_two _ _ (fun r => getCell r (y ++ sfx))
      (fun r => getCell r (y ++ sfx ++ pastMark))
      (fun c1 c2 => if c1.isNull then c2 else c1) hBt hBtp
  · have hY1 := yearLoop2Q_pres cy ys1 (y ++ sfx) h1t
    have hY1p := yearLoop2Q_pres cy ys1 (y ++ sfx ++ pastMark) h1tp
    have hU := sfxLoop2Q_pres y cy u (y ++ sfx) hut
    have hUp := sfxLoop2Q_pres y cy u (y ++ sfx ++ pastMark) hutp
    have hY2 := yearLoop2Q_pres cy ys2 (y ++ sfx) h2t
    have hV := sfxLoop2Q_pres y cy v (y ++ sfx) hvt
    have hyearloopEq : ∀ d : DF, yearLoop2Q cy years d =
        yearLoop2Q cy ys2 (sfxLoop2Q y cy (suffixesFor y cy) (yearLoop2Q cy ys1 d)) := by
      intro d
      rw [hsplit]
      unfold yearLoop2Q
      rw [List.foldl_append, List.foldl_cons]
    have hsfxloopEq : ∀ d : DF, sfxLoop2Q y cy (suffixesFor y cy) d =
        sfxLoop2Q y cy v (yearFixOne2Q (sfxLoop2Q y cy u d) (y ++ sfx) (y ++ sfx ++ pastMark)
          (decide (y = cy))) := by
      intro d
      rw [husplit]
      unfold sfxLoop2Q
      rw [List.foldl_append, List.foldl_cons]
    have hBtp : (sfxLoop2Q y cy u (yearLoop2Q cy ys1 (idLoop years
        (df.cols.filter (fun c => strEndsWith c pastMark)) df))).rows.map
          (fun r => getCell r (y ++ sfx ++ pastMark)) =
        df.rows.map (fun r => getCell r (y ++ sfx ++ pastMark)) := by
      rw [hUp.1, hY1p.1, hIdp.1]
    have hBmem : (y ++ sfx) ∈ (sfxLoop2Q y cy u (yearLoop2Q cy ys1 (idLoop years
        (df.cols.filter (fun c => strEndsWith c pastMark)) df))).cols :=
      hU.2.2.1 _ (hY1.2.2.1 _ (hId.2.2.1 _ hc))
    have hBmemp : (y ++ sfx ++ pastMark) ∈ (sfxLoop2Q y cy u (yearLoop2Q cy ys1 (idLoop years
        (df.cols.filter (fun c => strEndsWith c pastMark)) df))).cols :=
      hUp.2.2.1 _ (hY1p.2.2.1 _ (hIdp.2.2.1 _ hcp))
    have hBhas : HasCol (sfxLoop2Q y cy u (yearLoop2Q cy ys1 (idLoop years
        (df.cols.filter (fun c => strEndsWith c pastMark)) df))) (y ++ sfx) :=
      hU.2.1 _ (hY1.2.1 _ (hId.2.1 _ hv))
    show (dropPastCols (yearLoop2Q cy years (idLoop years
        (df.cols.filter (fun c => strEndsWith c pastMark)) df))
        (df.cols.filter (fun c => strEndsWith c pastMark))).rows.map
          (fun r => getCell r (y ++ sfx)) = _
    rw [dropPastCols_map_get _ (y ++ sfx) hdropne, hyearloopEq, hY2.1, hsfxloopEq, hflag,
      hV.1, yearFixOne2Q_overwrite_map_get _ _ _ hBmem hBmemp hBhas]
    exact hBtp

/-- Counterexample to C3 as stated: the two policies are not selectable by a
configuration flag — at the same merged table the 2Q script's pass overwrites
a non-null prior-year value with the shadow while the main script's pass keeps
it; each routine hard-codes one policy. -/
theorem policy_pair_counterexample :
    ((fixFullJoinNulls2Q dfC3 yearsW "2025").rows.map (fun r => getCell r "2024売上") ≠
      dfC3.rows.map (fun r => getCell r "2024売上"))
    ∧ ((fixFullJoinNulls dfC3 yearsW "2025").rows.map (fun r => getCell r "2024売上") =
      dfC3.rows.map (fun r => getCell r "2024売上")) := by decide

/-- Witness for the amended C3 at a concrete merged table. -/
theorem policy_pair_amended_witness :
    ((fixFullJoinNulls dfC3 yearsW "2025").rows.map (fun r => getCell r ("2024" ++ "売上")) =
      dfC3.rows.map (fun r => if (getCell r ("2024" ++ "売上")).isNull
        then getCell r ("2024" ++ "売上" ++ pastMark) else getCell r ("2024" ++ "売上")))
    ∧ ((fixFullJoinNulls2Q dfC3 yearsW "2025").rows.map (fun r => getCell r ("2024" ++ "売上")) =
      dfC3.rows.map (fun r => getCell r ("2024" ++ "売上" ++ pastMark))) :=
  policy_pair_amended dfC3 yearsW "2025" "2024" "売上" (by decide) (by decide) (by decide)
    (by decide) (by decide) (by decide) (by unfold HasCol; decide) (by decide)

/-! ### C4 — column completeness of the null-fix pass -/

theorem suffixesFor_nodup (y cy : String) : (suffixesFor y cy).Nodup := by
  unfold suffixesFor
  split
  · decide
  · decide

theorem yearFixOne_self_mem (df : DF) (cn pn : String) (b : Bool) :
    cn ∈ (yearFixOne df cn pn b).cols := by
  unfold yearFixOne
  split
  · split
    · next hc => simpa using hc
    · exact withColumn_mem_cols_self _ _ _
  · split
    · split
      · exact withColumn_mem_cols_self _ _ _
      · exact withColumn_mem_cols_self _ _ _
    · split
      · next hc => simpa using hc
      · exact withColumn_mem_cols_self _ _ _

theorem withColumn_create_map_get (df : DF) (c : String) (f : Row → Cell)
    (hc : c ∉ df.cols) (hr : RowsNo df c) :
    (df.withColumn c f).rows.map (fun r => getCell r c) = df.rows.map f := by
  unfold DF.withColumn
  rw [if_neg (by simpa using hc)]
  simp only [List.map_map]
  refine List.map_congr_left ?_
  intro r hrr
  simp only [Function.comp]
  show getCell (r ++ [(c, f r)]) c = f r
  unfold getCell
  rw [lookup_append, hr r hrr]
  simp [lookup_cons]

theorem yearFixOne_create_null_map_get (df : DF) (cn pn : String) (b : Bool)
    (hcn : cn ∉ df.cols) (hpn : pn ∉ df.cols) (hr : RowsNo df cn) :
    (yearFixOne df cn pn b).rows.map (fun r => getCell r cn) =
      df.rows.map (fun _ => Cell.null) := by
  unfold yearFixOne
  cases b with
  | true =>
    rw [if_pos rfl, if_neg (by simpa using hcn)]
    exact withColumn_create_map_get df cn _ hcn hr
  | false =>
    rw [if_neg (by simp), if_neg (by simpa using hpn), if_neg (by simpa using hcn)]
    exact withColumn_create_map_get df cn _ hcn hr

theorem idLoop_rowsNo (years pcs : List String) (t : String)
    (ht : years.any (fun y => strHasSub t y) = true) (df : DF) (hn : RowsNo df t) :
    RowsNo (idLoop years pcs df) t := by
  unfold idLoop
  exact foldl_rowsNo _ t pcs (fun pc _ d' hd => idFixOne_rowsNo years pc t ht d' hd) df hn

theorem sfxLoop_rowsNo (y cy : String) (l : List String) (t : String)
    (h : ∀ s' ∈ l, t ≠ y ++ s') (df : DF) (hn : RowsNo df t) :
    RowsNo (sfxLoop y cy l df) t := by
  unfold sfxLoop
  exact foldl_rowsNo _ t l
    (fun s' hs' d' hd => yearFixOne_rowsNo _ _ _ _ (h s' hs') d' hd) df hn

theorem yearLoop_rowsNo (cy : String) (ys : List String) (t : String)
    (h : ∀ y' ∈ ys, ∀ s' ∈ suffixesFor y' cy, t ≠ y' ++ s') (df : DF)
    (hn : RowsNo df t) : RowsNo (yearLoop cy ys df) t := by
  unfold yearLoop
  refine foldl_rowsNo _ t ys ?_ df hn
  intro y' hy' d hd
  exact sfxLoop_rowsNo y' cy _ t (h y' hy') d hd

theorem map_const_congr {α β : Type} (l1 l2 : List α) (b : β) (h : l1.length = l2.length) :
    l1.map (fun _ => b) = l2.map (fun _ => b) := by
  induction l1 generalizing l2 with
  | nil =>
    cases l2 with
    | nil => rfl
    | cons x l2 => simp at h
  | cons a l1 ih =>
    cases l2 with
    | nil => simp at h
    | cons x l2 =>
      simp only [List.map_cons, List.cons.injEq, true_and]
      exact ih l2 (by simpa using h)

/-- **C4** — Column completeness: for every year of the fiscal-year list and
every suffix applicable to that year (the sales-quantity suffix only for the
current year; area, revenue and gross margin for every year), the protective
null-fix pass leaves the merged table with that metric column; and when the
column was present on neither side of the join (neither it nor its `_past`
shadow exists, and no row carries such an entry), it is created as all-null
rather than omitted. -/
theorem column_completeness (df : DF) (years : List String) (cy y sfx : String)
    (hnd : years.Nodup) (hy : y ∈ years) (hsfx : sfx ∈ suffixesFor y cy)
    (hinj : ∀ y' ∈ years, ∀ s' ∈ metricSuffixes, y' ++ s' = y ++ sfx → y' = y ∧ s' = sfx) :
    ((y ++ sfx) ∈ (fixFullJoinNulls df years cy).cols)
    ∧ ((y ++ sfx) ∉ df.cols → (y ++ sfx ++ pastMark) ∉ df.cols →
        RowsNo df (y ++ sfx) →
        (fixFullJoinNulls df years cy).rows.map (fun r => getCell r (y ++ sfx)) =
          df.rows.map (fun _ => Cell.null)) := by
  have hsfxM : sfx ∈ metricSuffixes := mem_suffixesFor_mem_metric y cy sfx hsfx
  obtain ⟨ys1, ys2, hsplit, hy1, hy2⟩ := split_of_mem_nodup years y hy hnd
  obtain ⟨u, v, husplit, hu, hv2⟩ :=
    split_of_mem_nodup (suffixesFor y cy) sfx hsfx (suffixesFor_nodup y cy)
  have htA : years.any (fun y' => strHasSub (y ++ sfx) y') = true :=
    List.any_eq_true.mpr ⟨y, hy, strHasSub_append_self y sfx⟩
  have htpA : years.any (fun y' => strHasSub (y ++ sfx ++ pastMark) y') = true :=
    List.any_eq_true.mpr ⟨y, hy, strHasSub_append_append y sfx pastMark⟩
  have hys1 : ∀ y' ∈ ys1, y' ∈ years := by
    intro y' hy'
    rw [hsplit]
    exact List.mem_append.mpr (Or.inl hy')
  have hys2 : ∀ y' ∈ ys2, y' ∈ years := by
    intro y' hy'
    rw [hsplit]
    exact List.mem_append.mpr (Or.inr (List.mem_cons_of_mem _ hy'))
  have h1t : ∀ y' ∈ ys1, ∀ s' ∈ suffixesFor y' cy, (y ++ sfx) ≠ y' ++ s' := by
    intro y' hy' s' hs' hEq
    have hh := hinj y' (hys1 y' hy') s' (mem_suffixesFor_mem_metric y' cy s' hs') hEq.symm
    exact hy1 (hh.1 ▸ hy')
  have h2t : ∀ y' ∈ ys2, ∀ s' ∈ suffixesFor y' cy, (y ++ sfx) ≠ y' ++ s' := by
    intro y' hy' s' hs' hEq
    have hh := hinj y' (hys2 y' hy') s' (mem_suffixesFor_mem_metric y' cy s' hs') hEq.symm
    exact hy2 (hh.1 ▸ hy')
  have h1tp : ∀ y' ∈ ys1, ∀ s' ∈ suffixesFor y' cy, (y ++ sfx ++ pastMark) ≠ y' ++ s' := by
    intro y' hy' s' hs' hEq
    exact yearName_ne_pastName y' s' (y ++ sfx)
      (mem_suffixesFor_mem_metric y' cy s' hs') hEq.symm
  have hmemu : ∀ s' ∈ u, s' ∈ suffixesFor y cy := by
    intro s' hs'
    rw [husplit]
    exact List.mem_append.mpr (Or.inl hs')
  have hut : ∀ s' ∈ u, (y ++ sfx) ≠ y ++ s' := by
    intro s' hs' hEq
    apply hu
    rw [string_append_left_cancel y sfx s' hEq]
    exact hs'
  have hvt : ∀ s' ∈ v, (y ++ sfx) ≠ y ++ s' := by
    intro s' hs' hEq
    apply hv2
    rw [string_append_left_cancel y sfx s' hEq]
    exact hs'
  have hutp : ∀ s' ∈ u, (y ++ sfx ++ pastMark) ≠ y ++ s' := by
    intro s' hs' hEq
    exact yearName_ne_pastName y s' (y ++ sfx)
      (mem_suffixesFor_mem_metric y cy s' (hmemu s' hs')) hEq.symm
  have hdropne : ∀ pc ∈ df.cols.filter (fun c => strEndsWith c pastMark), (y ++ sfx) ≠ pc :=
    pastCols_ne_target df.cols (y ++ sfx) (yearName_not_endsWith_past y sfx hsfxM)
  have hId := idLoop_pres years (df.cols.filter (fun c => strEndsWith c pastMark))
    (y ++ sfx) htA
  have hIdp := idLoop_pres years (df.cols.filter (fun c => strEndsWith c pastMark))
    (y ++ sfx ++ pastMark) htpA
  have hY1 := yearLoop_pres cy ys1 (y ++ sfx) h1t
  have hY1p := yearLoop_pres cy ys1 (y ++ sfx ++ pastMark) h1tp
  have hU := sfxLoop_pres y cy u (y ++ sfx) hut
  have hUp := sfxLoop_pres y cy u (y ++ sfx ++ pastMark) hutp
  have hY2 := yearLoop_pres cy ys2 (y ++ sfx) h2t
  have hV := sfxLoop_pres y cy v (y ++ sfx) hvt
  have hyearloopEq : ∀ d : DF, yearLoop cy years d =
      yearLoop cy ys2 (sfxLoop y cy (suffixesFor y cy) (yearLoop cy ys1 d)) := by
    intro d
    rw [hsplit]
    unfold yearLoop
    rw [List.foldl_append, List.foldl_cons]
  have hsfxloopEq : ∀ d : DF, sfxLoop y cy (suffixesFor y cy) d =
      sfxLoop y cy v (yearFixOne (sfxLoop y cy u d) (y ++ sfx) (y ++ sfx ++ pastMark)
        (decide (y = cy))) := by
    intro d
    rw [husplit]
    unfold sfxLoop
    rw [List.foldl_append, List.foldl_cons]
  constructor
  · show (y ++ sfx) ∈ (dropPastCols (yearLoop cy years (idLoop years
        (df.cols.filter (fun c => strEndsWith c pastMark)) df))
        (df.cols.filter (fun c => strEndsWith c pastMark))).cols
    refine dropPastCols_mem_cols _ _ hdropne _ ?_
    rw [hyearloopEq]
    refine hY2.2.2.1 _ ?_
    rw [hsfxloopEq]
    refine hV.2.2.1 _ ?_
    exact yearFixOne_self_mem _ _ _ _
  · intro hnm hnmp hrn
    have hBnm : (y ++ sfx) ∉ (sfxLoop y cy u (yearLoop cy ys1 (idLoop years
        (df.cols.filter (fun c => strEndsWith c pastMark)) df))).cols :=
      hU.2.2.2 _ (hY1.2.2.2 _ (hId.2.2.2 _ hnm))
    have hBnmp : (y ++ sfx ++ pastMark) ∉ (sfxLoop y cy u (yearLoop cy ys1 (idLoop years
        (df.cols.filter (fun c => strEndsWith c pastMark)) df))).cols :=
      hUp.2.2.2 _ (hY1p.2.2.2 _ (hIdp.2.2.2 _ hnmp))
    have hBrn : RowsNo (sfxLoop y cy u (yearLoop cy ys1 (idLoop years
        (df.cols.filter (fun c => strEndsWith c pastMark)) df))) (y ++ sfx) :=
      sfxLoop_rowsNo y cy u _ hut _
        (yearLoop_rowsNo cy ys1 _ h1t _
          (idLoop_rowsNo years _ _ htA df hrn))
    have hBt : (sfxLoop y cy u (yearLoop cy ys1 (idLoop years
        (df.cols.filter (fun c => strEndsWith c pastMark)) df))).rows.map
          (fun r => getCell r (y ++ sfx)) =
        df.rows.map (fun r => getCell r (y ++ sfx)) := by
      rw [hU.1, hY1.1, hId.1]
    have hBlen : (sfxLoop y cy u (yearLoop cy ys1 (idLoop years
        (df.cols.filter (fun c => strEndsWith c pastMark)) df))).rows.length =
        df.rows.length := by
      have hh := congrArg List.length hBt
      simpa using hh
    show (dropPastCols (yearLoop cy years (idLoop years
        (df.cols.filter (fun c => strEndsWith c pastMark)) df))
        (df.cols.filter (fun c => strEndsWith c pastMark))).rows.map
          (fun r => getCell r (y ++ sfx)) = _
    rw [dropPastCols_map_get _ (y ++ sfx) hdropne, hyearloopEq, hY2.1, hsfxloopEq,
      hV.1, yearFixOne_create_null_map_get _ _ _ _ hBnm hBnmp hBrn]
    exact map_const_congr _ _ Cell.null hBlen

/-- Witness for C4: at a concrete join output lacking the 2024 revenue column
and its shadow, the null-fix pass adds the column and fills it with nulls. -/
theorem column_completeness_witness :
    (("2024" ++ "売上") ∈ (fixFullJoinNulls dfC4 yearsW "2025").cols)
    ∧ ((fixFullJoinNulls dfC4 yearsW "2025").rows.map
          (fun r => getCell r ("2024" ++ "売上")) =
        dfC4.rows.map (fun _ => Cell.null)) :=
  ⟨(column_completeness dfC4 yearsW "2025" "2024" "売上" (by decide) (by decide)
      (by decide) (by decide)).1,
   (column_completeness dfC4 yearsW "2025" "2024" "売上" (by decide) (by decide)
      (by decide) (by decide)).2 (by decide) (by decide) (by unfold RowsNo; decide)⟩

/-! ### C1 — sum-exchange machinery for the full join -/

theorem sum_map_zero {β : Type} (R : List β) : (R.map (fun _ => (0 : Int))).sum = 0 := by
  induction R with
  | nil => rfl
  | cons r R ih => simp [ih]

theorem sum_map_add_int {β : Type} (R : List β) (f g : β → Int) :
    (R.map (fun r => f r + g r)).sum = (R.map f).sum + (R.map g).sum := by
  induction R with
  | nil => simp
  | cons r R ih =>
    simp only [List.map_cons, List.sum_cons, ih]
    ring

theorem filter_map_sum_ite {β : Type} (R : List β) (q : β → Bool) (v : β → Int) :
    ((R.filter q).map v).sum = (R.map (fun r => if q r then v r else 0)).sum := by
  induction R with
  | nil => rfl
  | cons r R ih =>
    rw [List.filter_cons]
    by_cases hq : q r = true
    · rw [if_pos hq]
      simp only [List.map_cons, List.sum_cons, hq, if_true, ih]
    · rw [if_neg hq]
      simp only [List.map_cons, List.sum_cons, ih]
      rw [if_neg hq, zero_add]

theorem double_sum_swap {α β : Type} (l : List α) (R : List β) (p : α → β → Bool)
    (v : β → Int) :
    (l.map (fun x => ((R.filter (fun r => p x r)).map v).sum)).sum =
      (R.map (fun r => ((l.filter (fun x => p x r)).length : Int) * v r)).sum := by
  induction l with
  | nil =>
    simp only [List.map_nil, List.sum_nil, List.filter_nil, List.length_nil,
      Nat.cast_zero, zero_mul]
    rw [sum_map_zero]
  | cons x l ih =>
    simp only [List.map_cons, List.sum_cons, ih, List.filter_cons]
    rw [filter_map_sum_ite, ← sum_map_add_int]
    refine congrArg List.sum (List.map_congr_left ?_)
    intro r _
    by_cases hp : p x r = true
    · rw [if_pos hp, if_pos hp, List.length_cons]
      push_cast
      ring
    · rw [if_neg hp, if_neg hp, zero_add]

theorem sum_exchange {α β : Type} (l : List α) (R : List β) (p : α → β → Bool)
    (v : β → Int)
    (hcount : ∀ r ∈ R, (l.filter (fun x => p x r)).length ≤ 1) :
    (l.map (fun x => ((R.filter (fun r => p x r)).map v).sum)).sum
      + ((R.filter (fun r => !(l.any (fun x => p x r)))).map v).sum
    = (R.map v).sum := by
  rw [double_sum_swap]
  induction R with
  | nil => simp
  | cons r R ih =>
    have hr1 := hcount r (List.mem_cons_self r R)
    have hR : ∀ r' ∈ R, (l.filter (fun x => p x r')).length ≤ 1 :=
      fun r' h' => hcount r' (List.mem_cons_of_mem _ h')
    simp only [List.map_cons, List.sum_cons, List.filter_cons]
    by_cases ha : (l.any (fun x => p x r)) = true
    · have hpos : 0 < (l.filter (fun x => p x r)).length := by
        obtain ⟨x, hx, hpx⟩ := List.any_eq_true.mp ha
        exact List.length_pos_of_mem (List.mem_filter.mpr ⟨hx, hpx⟩)
      have hlen : (l.filter (fun x => p x r)).length = 1 := by omega
      rw [hlen]
      simp only [ha, Bool.not_true, Bool.false_eq_true, if_false]
      rw [Nat.cast_one, one_mul, add_assoc, ih hR]
    · have h0 : (l.filter (fun x => p x r)).length = 0 := by
        rw [List.length_eq_zero, List.filter_eq_nil_iff]
        intro x hx
        have := List.any_eq_false.mp (Bool.not_eq_true _ ▸ ha) x hx
        simpa using this
      rw [h0]
      have hnot : (!(l.any (fun x => p x r))) = true := by
        cases hq : l.any (fun x => p x r)
        · rfl
        · exact absurd hq ha
      simp only [hnot, if_true]
      simp only [Nat.cast_zero, zero_mul, zero_add, List.map_cons, List.sum_cons]
      have hih := ih hR
      linarith

theorem sum_map_flatMap {α β : Type} (l : List α) (f : α → List β) (v : β → Int) :
    ((l.flatMap f).map v).sum = (l.map (fun x => ((f x).map v).sum)).sum := by
  induction l with
  | nil => rfl
  | cons x l ih =>
    simp only [List.flatMap_cons, List.map_append, List.sum_append, List.map_cons,
      List.sum_cons, ih]

/-! ### C1 — lookup behaviour of join output rows -/

theorem lookup_none_of_not_mem_names (r : Row) (c : String) (h : c ∉ rowNames r) :
    List.lookup c r = none := by
  induction r with
  | nil => rfl
  | cons p r ih =>
    obtain ⟨a, b⟩ := p
    simp only [rowNames, List.map_cons, List.mem_cons, not_or] at h
    rw [lookup_cons, if_neg (fun hh => h.1 hh.symm)]
    refine ih ?_
    simpa [rowNames] using h.2

theorem rowsNo_of_not_mem_cols (df : DF) (c : String) (hWF : DF.WF df)
    (hc : c ∉ df.cols) : RowsNo df c := by
  intro r hr
  refine lookup_none_of_not_mem_names r c ?_
  rw [hWF.2 r hr]
  exact hc

theorem getCell_append_right (lr rest : Row) (c : String)
    (h : List.lookup c lr = none) : getCell (lr ++ rest) c = getCell rest c := by
  unfold getCell
  rw [lookup_append, h]

theorem getCell_nullRow (ns : List String) (c : String) :
    getCell (nullRow ns) c = Cell.null := by
  induction ns with
  | nil => rfl
  | cons n ns ih =>
    show getCell ((n, Cell.null) :: nullRow ns) c = Cell.null
    unfold getCell
    rw [lookup_cons]
    by_cases h : n = c
    · simp [h]
    · rw [if_neg h]
      exact ih

theorem rowNames_nullRow (ns : List String) : rowNames (nullRow ns) = ns := by
  induction ns with
  | nil => rfl
  | cons n ns ih =>
    show n :: rowNames (nullRow ns) = n :: ns
    rw [ih]

theorem rowNames_map_fst_fn (f : String → String) (r : Row) :
    rowNames (r.map (fun p => (f p.1, p.2))) = (rowNames r).map f := by
  unfold rowNames
  rw [List.map_map, List.map_map]
  rfl

theorem rowNames_renameRightRow (lcols : List String) (rr : Row) :
    rowNames (renameRightRow lcols rr) = rightOutCols lcols (rowNames rr) := by
  unfold rowNames renameRightRow rightOutCols
  rw [List.map_map, List.map_map]
  rfl

theorem lookup_renameRightRow_past (lcols : List String) (rr : Row) (c0 : String)
    (h : (c0 ++ pastMark) ∉ lcols) :
    List.lookup (c0 ++ pastMark) (renameRightRow lcols rr) =
      List.lookup (c0 ++ pastMark) rr := by
  induction rr with
  | nil => rfl
  | cons p rr ih =>
    obtain ⟨e, val⟩ := p
    show List.lookup (c0 ++ pastMark)
        ((if lcols.contains e then e ++ "_right" else e, val) :: renameRightRow lcols rr) = _
    rw [lookup_cons, lookup_cons]
    by_cases he : e = c0 ++ pastMark
    · have hce : lcols.contains e = false := by
        cases hb : lcols.contains e
        · rfl
        · exact absurd (he ▸ (by simpa using hb)) h
      rw [hce]
      simp [he]
    · by_cases hce : lcols.contains e = true
      · rw [hce]
        simp only [if_true]
        rw [if_neg (rightName_ne_pastName e c0), if_neg he]
        exact ih
      · have hceF : lcols.contains e = false := by
          cases hb : lcols.contains e
          · rfl
          · exact absurd hb hce
        rw [hceF]
        simp only [Bool.false_eq_true, if_false]
        rw [if_neg he, if_neg he]
        exact ih

/-! ### C1 — shape of the suffix rename mapping -/

theorem lookup_mem_of_some {β : Type} (m : List (String × β)) (a : String) (v : β)
    (h : List.lookup a m = some v) : (a, v) ∈ m := by
  induction m with
  | nil => cases h
  | cons p m ih =>
    obtain ⟨x, w⟩ := p
    rw [lookup_cons] at h
    by_cases hx : x = a
    · rw [if_pos hx] at h
      subst hx
      cases h
      exact List.mem_cons_self _ _
    · rw [if_neg hx] at h
      exact List.mem_cons_of_mem _ (ih h)

theorem lookup_isSome_of_mem {β : Type} (m : List (String × β)) (a : String) (v : β)
    (h : (a, v) ∈ m) : (List.lookup a m).isSome := by
  induction m with
  | nil => cases h
  | cons p m ih =>
    obtain ⟨x, w⟩ := p
    rw [lookup_cons]
    by_cases hx : x = a
    · rw [if_pos hx]
      rfl
    · rw [if_neg hx]
      rcases List.mem_cons.mp h with hh | hh
      · exact absurd (congrArg Prod.fst hh).symm hx
      · exact ih hh

theorem mem_suffix_mapping (cols prot : List String) (p : String × String)
    (h : p ∈ cols.filterMap (fun c =>
      if prot.contains c then none else some (c, c ++ pastMark))) :
    p.2 = p.1 ++ pastMark ∧ prot.contains p.1 = false ∧ p.1 ∈ cols := by
  obtain ⟨a, ha, hfa⟩ := List.mem_filterMap.mp h
  by_cases hp : prot.contains a = true
  · rw [if_pos hp] at hfa
    cases hfa
  · rw [if_neg hp] at hfa
    cases hfa
    exact ⟨rfl, by cases hb : prot.contains a with
      | true => exact absurd hb hp
      | false => rfl, ha⟩

theorem mem_suffix_mapping_of (cols prot : List String) (c : String)
    (hc : c ∈ cols) (hp : prot.contains c = false) :
    (c, c ++ pastMark) ∈ cols.filterMap (fun c' =>
      if prot.contains c' then none else some (c', c' ++ pastMark)) :=
  List.mem_filterMap.mpr ⟨c, hc, by rw [hp]; rfl⟩

theorem applyRename_eq_past (cols prot : List String) (c : String)
    (hc : c ∈ cols) (hp : prot.contains c = false) :
    applyRename (cols.filterMap (fun c' =>
      if prot.contains c' then none else some (c', c' ++ pastMark))) c =
      c ++ pastMark := by
  have hs := lookup_isSome_of_mem _ _ _ (mem_suffix_mapping_of cols prot c hc hp)
  unfold applyRename
  cases hl : List.lookup c (cols.filterMap (fun c' =>
      if prot.contains c' then none else some (c', c' ++ pastMark))) with
  | none =>
    rw [hl] at hs
    cases hs
  | some v =>
    have := (mem_suffix_mapping cols prot (c, v) (lookup_mem_of_some _ _ _ hl)).1
    simpa using this

theorem applyRename_shape (cols prot : List String) (e : String) :
    applyRename (cols.filterMap (fun c' =>
        if prot.contains c' then none else some (c', c' ++ pastMark))) e = e ∨
      applyRename (cols.filterMap (fun c' =>
        if prot.contains c' then none else some (c', c' ++ pastMark))) e =
        e ++ pastMark := by
  unfold applyRename
  cases hl : List.lookup e (cols.filterMap (fun c' =>
      if prot.contains c' then none else some (c', c' ++ pastMark))) with
  | none => exact Or.inl rfl
  | some v =>
    right
    have := (mem_suffix_mapping cols prot (e, v) (lookup_mem_of_some _ _ _ hl)).1
    simpa using this

theorem string_append_ne_left (a b : String) (hb : b.data ≠ []) : a ++ b ≠ a := by
  intro h
  have hd : (a ++ b).data.length = a.data.length := by rw [h]
  rw [String.data_append, List.length_append] at hd
  have : 0 < b.data.length := List.length_pos.mpr hb
  omega

theorem not_mem_renamed_cols (cols prot : List String) (c : String)
    (h1 : ∀ e : String, e ++ pastMark ≠ c) (h2 : c ∈ cols)
    (h3 : prot.contains c = false) :
    c ∉ cols.map (applyRename (cols.filterMap (fun c' =>
      if prot.contains c' then none else some (c', c' ++ pastMark)))) := by
  intro hmem
  obtain ⟨e, he, hfe⟩ := List.mem_map.mp hmem
  rcases applyRename_shape cols prot e with hsh | hsh
  · rw [hsh] at hfe
    subst hfe
    have := applyRename_eq_past cols prot e h2 h3
    rw [hsh] at this
    exact string_append_ne_left e pastMark (by decide) this.symm
  · rw [hsh] at hfe
    exact h1 e hfe

theorem yearName_ne_rightName (y sfx x : String) (h : sfx ∈ metricSuffixes) :
    x ++ "_right" ≠ y ++ sfx := by
  intro hEq
  have h1 : strLastChar (x ++ "_right") = strLastChar (y ++ sfx) := by rw [hEq]
  rw [strLastChar_append x "_right" (by decide), metricSuffix_lastChar sfx h y] at h1
  have h2 : strLastChar "_right" = some 't' := by decide
  rw [h2] at h1
  exact metricSuffix_lastChar_ne_t sfx h h1.symm

theorem not_mem_rightOutCols (lcols rcols : List String) (c : String)
    (h1 : c ∉ rcols) (h2 : ∀ e : String, e ++ "_right" ≠ c) :
    c ∉ rightOutCols lcols rcols := by
  intro hmem
  obtain ⟨e, he, hfe⟩ := List.mem_map.mp hmem
  by_cases hl : lcols.contains e = true
  · rw [if_pos hl] at hfe
    exact h2 e hfe
  · rw [if_neg hl] at hfe
    exact h1 (hfe ▸ he)

theorem mem_rightOutCols_self (lcols rcols : List String) (c : String)
    (h1 : c ∈ rcols) (h2 : c ∉ lcols) : c ∈ rightOutCols lcols rcols :=
  List.mem_map.mpr ⟨c, h1, by rw [if_neg (by simpa using h2)]⟩

theorem addPastSuffix_eq (df : DF) (keys : List String) (h : df.isEmpty = false) :
    addPastSuffix df keys = df.rename (df.cols.filterMap (fun c =>
      if (protectedKeys ++ keys).contains c then none
      else some (c, c ++ pastMark))) := by
  unfold addPastSuffix
  rw [if_neg (by simp [h])]

/-! ### C1 — the full join's rows and their past-column values -/

theorem join_rows_eq (l r : DF) (keys : List String) :
    (DF.join l r keys).rows =
      (l.rows.flatMap (fun lr =>
        if (r.rows.filter (fun rr => keyMatch keys lr rr)).isEmpty then
          [lr ++ nullRow (rightOutCols l.cols r.cols)]
        else (r.rows.filter (fun rr => keyMatch keys lr rr)).map
          (fun rr => lr ++ renameRightRow l.cols rr)))
      ++ ((r.rows.filter (fun rr => !(l.rows.any (fun lr => keyMatch keys lr rr)))).map
          (fun rr => nullRow l.cols ++ renameRightRow l.cols rr)) := rfl

theorem lookup_map_fst (f : String → String) (r : Row) (c c' : String)
    (hc : f c = c')
    (hinj : ∀ e, e ∈ rowNames r → f e = c' → e = c) :
    List.lookup c' (r.map (fun p => (f p.1, p.2))) = List.lookup c r := by
  induction r with
  | nil => rfl
  | cons p r ih =>
    obtain ⟨e, val⟩ := p
    rw [List.map_cons, lookup_cons, lookup_cons]
    by_cases he : e = c
    · subst he
      rw [if_pos hc, if_pos rfl]
    · have hfe : ¬ (f e = c') := fun hh =>
        he (hinj e (by simp [rowNames]) hh)
      rw [if_neg hfe, if_neg he]
      refine ih ?_
      intro e' he' hf'
      refine hinj e' ?_ hf'
      simp only [rowNames, List.map_cons, List.mem_cons]
      right
      exact he'

theorem join_rowsNo (cur H : DF) (keys : List String) (c : String)
    (h1 : ∀ lr ∈ cur.rows, List.lookup c lr = none)
    (h2 : ∀ rr ∈ H.rows, List.lookup c (renameRightRow cur.cols rr) = none)
    (h3 : c ∉ cur.cols) (h4 : c ∉ rightOutCols cur.cols H.cols) :
    RowsNo (DF.join cur H keys) c := by
  intro row hrow
  rw [join_rows_eq] at hrow
  rcases List.mem_append.mp hrow with hm | hm
  · obtain ⟨lr, hlr, hin⟩ := List.mem_flatMap.mp hm
    split at hin
    · rw [List.mem_singleton] at hin
      subst hin
      rw [lookup_append, h1 lr hlr]
      exact lookup_none_of_not_mem_names _ _ (by rw [rowNames_nullRow]; exact h4)
    · obtain ⟨rr, hrr, rfl⟩ := List.mem_map.mp hin
      rw [lookup_append, h1 lr hlr]
      exact h2 rr (List.mem_of_mem_filter hrr)
  · obtain ⟨rr, hrr, rfl⟩ := List.mem_map.mp hm
    rw [lookup_append,
      lookup_none_of_not_mem_names _ _ (by rw [rowNames_nullRow]; exact h3)]
    exact h2 rr (List.mem_of_mem_filter hrr)

theorem join_map_get_past (cur H : DF) (keys : List String) (c0 : String)
    (hlr : ∀ lr ∈ cur.rows, List.lookup (c0 ++ pastMark) lr = none)
    (hcp : (c0 ++ pastMark) ∉ cur.cols)
    (hcount : ∀ rr ∈ H.rows, (cur.rows.filter (fun lr => keyMatch keys lr rr)).length ≤ 1) :
    ((DF.join cur H keys).rows.map
        (fun row => cellToInt (getCell row (c0 ++ pastMark)))).sum
      = (H.rows.map (fun rr => cellToInt (getCell rr (c0 ++ pastMark)))).sum := by
  have hrrget : ∀ rr : Row, getCell (renameRightRow cur.cols rr) (c0 ++ pastMark) =
      getCell rr (c0 ++ pastMark) := by
    intro rr
    unfold getCell
    rw [lookup_renameRightRow_past cur.cols rr c0 hcp]
  rw [join_rows_eq, List.map_append, List.sum_append, sum_map_flatMap]
  have hpart1 : (cur.rows.map (fun lr =>
        (((if (H.rows.filter (fun rr => keyMatch keys lr rr)).isEmpty then
            [lr ++ nullRow (rightOutCols cur.cols H.cols)]
          else (H.rows.filter (fun rr => keyMatch keys lr rr)).map
            (fun rr => lr ++ renameRightRow cur.cols rr)).map
          (fun row => cellToInt (getCell row (c0 ++ pastMark)))).sum))).sum
      = (cur.rows.map (fun lr => ((H.rows.filter (fun rr => keyMatch keys lr rr)).map
          (fun rr => cellToInt (getCell rr (c0 ++ pastMark)))).sum)).sum := by
    refine congrArg List.sum (List.map_congr_left ?_)
    intro lr hlr'
    split
    · next hEmp =>
      have hn : H.rows.filter (fun rr => keyMatch keys lr rr) = [] := by
        simpa using hEmp
      rw [hn]
      simp only [List.map_cons, List.map_nil, List.sum_cons, List.sum_nil]
      rw [getCell_append_right _ _ _ (hlr lr hlr'), getCell_nullRow]
      rfl
    · rw [List.map_map]
      refine congrArg List.sum (List.map_congr_left ?_)
      intro rr _
      simp only [Function.comp]
      refine congrArg cellToInt ?_
      rw [getCell_append_right _ _ _ (hlr lr hlr')]
      exact hrrget rr
  rw [hpart1]
  have hpart2 : (((H.rows.filter
          (fun rr => !(cur.rows.any (fun lr => keyMatch keys lr rr)))).map
        (fun rr => nullRow cur.cols ++ renameRightRow cur.cols rr)).map
          (fun row => cellToInt (getCell row (c0 ++ pastMark)))).sum
      = ((H.rows.filter (fun rr => !(cur.rows.any (fun lr => keyMatch keys lr rr)))).map
          (fun rr => cellToInt (getCell rr (c0 ++ pastMark)))).sum := by
    rw [List.map_map]
    refine congrArg List.sum (List.map_congr_left ?_)
    intro rr _
    simp only [Function.comp]
    refine congrArg cellToInt ?_
    rw [getCell_append_right _ _ _
      (lookup_none_of_not_mem_names _ _ (by rw [rowNames_nullRow]; exact hcp))]
    exact hrrget rr
  rw [hpart2]
  exact sum_exchange cur.rows H.rows (fun lr rr => keyMatch keys lr rr)
    (fun rr => cellToInt (getCell rr (c0 ++ pastMark))) hcount

theorem renamed_hist_sum (hist : DF) (keys : List String) (c : String)
    (hWF : DF.WF hist) (hc : c ∈ hist.cols)
    (hprot : (protectedKeys ++ keys).contains c = false)
    (hcp_hist : (c ++ pastMark) ∉ hist.cols) :
    ((hist.rename (hist.cols.filterMap (fun c' =>
        if (protectedKeys ++ keys).contains c' then none
        else some (c', c' ++ pastMark)))).rows.map
      (fun rr => cellToInt (getCell rr (c ++ pastMark)))).sum
    = (hist.rows.map (fun hr => cellToInt (getCell hr c))).sum := by
  have hrows : (hist.rename (hist.cols.filterMap (fun c' =>
      if (protectedKeys ++ keys).contains c' then none
      else some (c', c' ++ pastMark)))).rows =
      hist.rows.map (fun r => r.map (fun p =>
        (applyRename (hist.cols.filterMap (fun c' =>
          if (protectedKeys ++ keys).contains c' then none
          else some (c', c' ++ pastMark))) p.1, p.2))) := rfl
  rw [hrows, List.map_map]
  refine congrArg List.sum (List.map_congr_left ?_)
  intro hr hhr
  simp only [Function.comp]
  refine congrArg cellToInt ?_
  unfold getCell
  rw [lookup_map_fst _ hr c (c ++ pastMark)
    (applyRename_eq_past hist.cols (protectedKeys ++ keys) c hc hprot) ?_]
  intro e he hfe
  rw [hWF.2 hr hhr] at he
  rcases applyRename_shape hist.cols (protectedKeys ++ keys) e with hsh | hsh
  · rw [hsh] at hfe
    exact absurd (hfe ▸ he) hcp_hist
  · rw [hsh] at hfe
    exact string_append_right_cancel e c pastMark hfe

theorem yearFixOne_copy_map_get (df : DF) (cn pn : String)
    (hpn : pn ∈ df.cols) (hcn : cn ∉ df.cols) (hr : RowsNo df cn) :
    (yearFixOne df cn pn false).rows.map (fun r => getCell r cn) =
      df.rows.map (fun r => getCell r pn) := by
  unfold yearFixOne
  rw [if_neg (by simp), if_pos (by simpa using hpn), if_neg (by simpa using hcn)]
  exact withColumn_create_map_get df cn _ hcn hr

/-! ### C1 — the protective pass copies an absent prior-year column from its shadow -/

theorem fixFullJoinNulls_copy_map_get (df : DF) (years : List String) (cy y sfx : String)
    (hnd : years.Nodup) (hy : y ∈ years) (hyc : y ≠ cy)
    (hsfx : sfx ∈ ["㎡", "売上", "粗利"])
    (hinj : ∀ y' ∈ years, ∀ s' ∈ metricSuffixes, y' ++ s' = y ++ sfx → y' = y ∧ s' = sfx)
    (hcm : (y ++ sfx) ∉ df.cols) (hcpm : (y ++ sfx ++ pastMark) ∈ df.cols)
    (hrn : RowsNo df (y ++ sfx)) :
    (fixFullJoinNulls df years cy).rows.map (fun r => getCell r (y ++ sfx)) =
      df.rows.map (fun r => getCell r (y ++ sfx ++ pastMark)) := by
  have hsfxM : sfx ∈ metricSuffixes := mem3_metric sfx hsfx
  obtain ⟨ys1, ys2, hsplit, hy1, hy2⟩ := split_of_mem_nodup years y hy hnd
  have hsfx' : sfx ∈ suffixesFor y cy := by
    rw [suffixesFor_ne y cy hyc]
    exact hsfx
  obtain ⟨u, v, husplit, hu, hv2⟩ :=
    split_of_mem_nodup (suffixesFor y cy) sfx hsfx' (suffixesFor_nodup y cy)
  have hflag : decide (y = cy) = false := by simp [hyc]
  have htA : years.any (fun y' => strHasSub (y ++ sfx) y') = true :=
    List.any_eq_true.mpr ⟨y, hy, strHasSub_append_self y sfx⟩
  have htpA : years.any (fun y' => strHasSub (y ++ sfx ++ pastMark) y') = true :=
    List.any_eq_true.mpr ⟨y, hy, strHasSub_append_append y sfx pastMark⟩
  have hys1 : ∀ y' ∈ ys1, y' ∈ years := by
    intro y' hy'
    rw [hsplit]
    exact List.mem_append.mpr (Or.inl hy')
  have hys2 : ∀ y' ∈ ys2, y' ∈ years := by
    intro y' hy'
    rw [hsplit]
    exact List.mem_append.mpr (Or.inr (List.mem_cons_of_mem _ hy'))
  have h1t : ∀ y' ∈ ys1, ∀ s' ∈ suffixesFor y' cy, (y ++ sfx) ≠ y' ++ s' := by
    intro y' hy' s' hs' hEq
    have hh := hinj y' (hys1 y' hy') s' (mem_suffixesFor_mem_metric y' cy s' hs') hEq.symm
    exact hy1 (hh.1 ▸ hy')
  have h2t : ∀ y' ∈ ys2, ∀ s' ∈ suffixesFor y' cy, (y ++ sfx) ≠ y' ++ s' := by
    intro y' hy' s' hs' hEq
    have hh := hinj y' (hys2 y' hy') s' (mem_suffixesFor_mem_metric y' cy s' hs') hEq.symm
    exact hy2 (hh.1 ▸ hy')
  have h1tp : ∀ y' ∈ ys1, ∀ s' ∈ suffixesFor y' cy, (y ++ sfx ++ pastMark) ≠ y' ++ s' := by
    intro y' hy' s' hs' hEq
    exact yearName_ne_pastName y' s' (y ++ sfx)
      (mem_suffixesFor_mem_metric y' cy s' hs') hEq.symm
  have hmemu : ∀ s' ∈ u, s' ∈ suffixesFor y cy := by
    intro s' hs'
    rw [husplit]
    exact List.mem_append.mpr (Or.inl hs')
  have hut : ∀ s' ∈ u, (y ++ sfx) ≠ y ++ s' := by
    intro s' hs' hEq
    apply hu
    rw [string_append_left_cancel y sfx s' hEq]
    exact hs'
  have hvt : ∀ s' ∈ v, (y ++ sfx) ≠ y ++ s' := by
    intro s' hs' hEq
    apply hv2
    rw [string_append_left_cancel y sfx s' hEq]
    exact hs'
  have hutp : ∀ s' ∈ u, (y ++ sfx ++ pastMark) ≠ y ++ s' := by
    intro s' hs' hEq
    exact yearName_ne_pastName y s' (y ++ sfx)
      (mem_suffixesFor_mem_metric y cy s' (hmemu s' hs')) hEq.symm
  have hdropne : ∀ pc ∈ df.cols.filter (fun c => strEndsWith c pastMark), (y ++ sfx) ≠ pc :=
    pastCols_ne_target df.cols (y ++ sfx) (yearName_not_endsWith_past y sfx hsfxM)
  have hId := idLoop_pres years (df.cols.filter (fun c => strEndsWith c pastMark))
    (y ++ sfx) htA
  have hIdp := idLoop_pres years (df.cols.filter (fun c => strEndsWith c pastMark))
    (y ++ sfx ++ pastMark) htpA
  have hY1 := yearLoop_pres cy ys1 (y ++ sfx) h1t
  have hY1p := yearLoop_pres cy ys1 (y ++ sfx ++ pastMark) h1tp
  have hU := sfxLoop_pres y cy u (y ++ sfx) hut
  have hUp := sfxLoop_pres y cy u (y ++ sfx ++ pastMark) hutp
  have hY2 := yearLoop_pres cy ys2 (y ++ sfx) h2t
  have hV := sfxLoop_pres y cy v (y ++ sfx) hvt
  have hyearloopEq : ∀ d : DF, yearLoop cy years d =
      yearLoop cy ys2 (sfxLoop y cy (suffixesFor y cy) (yearLoop cy ys1 d)) := by
    intro d
    rw [hsplit]
    unfold yearLoop
    rw [List.foldl_append, List.foldl_cons]
  have hsfxloopEq : ∀ d : DF, sfxLoop y cy (suffixesFor y cy) d =
      sfxLoop y cy v (yearFixOne (sfxLoop y cy u d) (y ++ sfx) (y ++ sfx ++ pastMark)
        (decide (y = cy))) := by
    intro d
    rw [husplit]
    unfold sfxLoop
    rw [List.foldl_append, List.foldl_cons]
  have hBmemp : (y ++ sfx ++ pastMark) ∈ (sfxLoop y cy u (yearLoop cy ys1 (idLoop years
      (df.cols.filter (fun c => strEndsWith c pastMark)) df))).cols :=
    hUp.2.2.1 _ (hY1p.2.2.1 _ (hIdp.2.2.1 _ hcpm))
  have hBnm : (y ++ sfx) ∉ (sfxLoop y cy u (yearLoop cy ys1 (idLoop years
      (df.cols.filter (fun c => strEndsWith c pastMark)) df))).cols :=
    hU.2.2.2 _ (hY1.2.2.2 _ (hId.2.2.2 _ hcm))
  have hBrn : RowsNo (sfxLoop y cy u (yearLoop cy ys1 (idLoop years
      (df.cols.filter (fun c => strEndsWith c pastMark)) df))) (y ++ sfx) :=
    sfxLoop_rowsNo y cy u _ hut _
      (yearLoop_rowsNo cy ys1 _ h1t _
        (idLoop_rowsNo years _ _ htA df hrn))
  show (dropPastCols (yearLoop cy years (idLoop years
      (df.cols.filter (fun c => strEndsWith c pastMark)) df))
      (df.cols.filter (fun c => strEndsWith c pastMark))).rows.map
        (fun r => getCell r (y ++ sfx)) = _
  rw [dropPastCols_map_get _ (y ++ sfx) hdropne, hyearloopEq, hY2.1, hsfxloopEq, hflag,
    hV.1, yearFixOne_copy_map_get _ _ _ hBmemp hBnm hBrn, hUp.1, hY1p.1, hIdp.1]

/-- **C1** — Conservation under merge: for a prior-year metric column present
in the historical table but absent from the current table (no new transactions
for it), the protective merge neither loses nor duplicates its total — after
suffixing, full-joining and the null fix, the column's sum over the merged
output equals its sum over the pre-merge historical table, provided each
historical row is matched by at most one current row. -/
theorem merge_conservation (cur hist : DF) (keys years : List String) (cy y sfx : String)
    (hWFc : DF.WF cur) (hWFh : DF.WF hist)
    (hnd : years.Nodup) (hy : y ∈ years) (hyc : y ≠ cy)
    (hsfx : sfx ∈ ["㎡", "売上", "粗利"])
    (hinj : ∀ y' ∈ years, ∀ s' ∈ metricSuffixes, y' ++ s' = y ++ sfx → y' = y ∧ s' = sfx)
    (hch : (y ++ sfx) ∈ hist.cols)
    (hcc : (y ++ sfx) ∉ cur.cols)
    (hcpc : (y ++ sfx ++ pastMark) ∉ cur.cols)
    (hcph : (y ++ sfx ++ pastMark) ∉ hist.cols)
    (hprot : (protectedKeys ++ keys).contains (y ++ sfx) = false)
    (hne : hist.isEmpty = false)
    (hcount : ∀ rr ∈ (addPastSuffix hist keys).rows,
      (cur.rows.filter (fun lr => keyMatch keys lr rr)).length ≤ 1) :
    DF.sumCol
        (fixFullJoinNulls (DF.join cur (addPastSuffix hist keys) keys) years cy)
        (y ++ sfx)
      = DF.sumCol hist (y ++ sfx) := by
  have hsfxM : sfx ∈ metricSuffixes := mem3_metric sfx hsfx
  have hM := addPastSuffix_eq hist keys hne
  have hHcols : (addPastSuffix hist keys).cols =
      hist.cols.map (applyRename (hist.cols.filterMap (fun c' =>
        if (protectedKeys ++ keys).contains c' then none
        else some (c', c' ++ pastMark)))) := by
    rw [hM]
    rfl
  have hHrows : (addPastSuffix hist keys).rows =
      hist.rows.map (fun r => r.map (fun p =>
        (applyRename (hist.cols.filterMap (fun c' =>
          if (protectedKeys ++ keys).contains c' then none
          else some (c', c' ++ pastMark))) p.1, p.2))) := by
    rw [hM]
    rfl
  have hcpH : (y ++ sfx ++ pastMark) ∈ (addPastSuffix hist keys).cols := by
    rw [hHcols]
    exact List.mem_map.mpr ⟨y ++ sfx, hch,
      applyRename_eq_past hist.cols (protectedKeys ++ keys) (y ++ sfx) hch hprot⟩
  have hcH : (y ++ sfx) ∉ (addPastSuffix hist keys).cols := by
    rw [hHcols]
    exact not_mem_renamed_cols hist.cols (protectedKeys ++ keys) (y ++ sfx)
      (fun e hEq => yearName_ne_pastName y sfx e hsfxM hEq.symm) hch hprot
  have hcRO : (y ++ sfx) ∉ rightOutCols cur.cols (addPastSuffix hist keys).cols :=
    not_mem_rightOutCols _ _ _ hcH (fun e => yearName_ne_rightName y sfx e hsfxM)
  have hJcols : (DF.join cur (addPastSuffix hist keys) keys).cols =
      cur.cols ++ rightOutCols cur.cols (addPastSuffix hist keys).cols := rfl
  have hcJ : (y ++ sfx) ∉ (DF.join cur (addPastSuffix hist keys) keys).cols := by
    rw [hJcols]
    intro hmem
    rcases List.mem_append.mp hmem with h | h
    · exact hcc h
    · exact hcRO h
  have hcpJ : (y ++ sfx ++ pastMark) ∈ (DF.join cur (addPastSuffix hist keys) keys).cols := by
    rw [hJcols]
    exact List.mem_append.mpr (Or.inr (mem_rightOutCols_self _ _ _ hcpH hcpc))
  have hcurNoC : ∀ lr ∈ cur.rows, List.lookup (y ++ sfx) lr = none :=
    rowsNo_of_not_mem_cols cur (y ++ sfx) hWFc hcc
  have hcurNoCp : ∀ lr ∈ cur.rows, List.lookup (y ++ sfx ++ pastMark) lr = none :=
    rowsNo_of_not_mem_cols cur (y ++ sfx ++ pastMark) hWFc hcpc
  have hHrowNames : ∀ rr ∈ (addPastSuffix hist keys).rows,
      rowNames rr = (addPastSuffix hist keys).cols := by
    intro rr hrr
    rw [hHrows] at hrr
    obtain ⟨hr, hhr, rfl⟩ := List.mem_map.mp hrr
    rw [rowNames_map_fst_fn, hWFh.2 hr hhr, hHcols]
  have hRNoC : ∀ rr ∈ (addPastSuffix hist keys).rows,
      List.lookup (y ++ sfx) (renameRightRow cur.cols rr) = none := by
    intro rr hrr
    refine lookup_none_of_not_mem_names _ _ ?_
    rw [rowNames_renameRightRow, hHrowNames rr hrr]
    exact hcRO
  have hJNoC : RowsNo (DF.join cur (addPastSuffix hist keys) keys) (y ++ sfx) :=
    join_rowsNo cur (addPastSuffix hist keys) keys (y ++ sfx) hcurNoC hRNoC hcc hcRO
  have hchain := fixFullJoinNulls_copy_map_get
    (DF.join cur (addPastSuffix hist keys) keys) years cy y sfx
    hnd hy hyc hsfx hinj hcJ hcpJ hJNoC
  have h1 : (fixFullJoinNulls (DF.join cur (addPastSuffix hist keys) keys) years cy).rows.map
        (fun r => cellToInt (getCell r (y ++ sfx)))
      = (DF.join cur (addPastSuffix hist keys) keys).rows.map
        (fun r => cellToInt (getCell r (y ++ sfx ++ pastMark))) := by
    have h2 := congrArg (List.map cellToInt) hchain
    rw [List.map_map, List.map_map] at h2
    simpa [Function.comp] using h2
  unfold DF.sumCol
  rw [h1, join_map_get_past cur (addPastSuffix hist keys) keys (y ++ sfx)
    hcurNoCp hcpc hcount, hM]
  exact renamed_hist_sum hist keys (y ++ sfx) hWFh hch hprot hcph

/-- Witness for C1: a concrete corporate merge where the historical 2024
revenue totals 12 over two rows (one matched, one unmatched), and the merged
output's 2024 revenue column sums to the same 12. -/
theorem merge_conservation_witness :
    DF.sumCol (fixFullJoinNulls
        (DF.join dfCurC1 (addPastSuffix dfHistC1 ["法人コード"]) ["法人コード"])
        yearsW "2025") ("2024" ++ "売上")
      = DF.sumCol dfHistC1 ("2024" ++ "売上") :=
  merge_conservation dfCurC1 dfHistC1 ["法人コード"] yearsW "2025" "2024" "売上"
    (by unfold DF.WF; decide) (by unfold DF.WF; decide) (by decide) (by decide)
    (by decide) (by decide) (by decide) (by decide) (by decide) (by decide)
    (by decide) (by decide) (by decide) (by decide)
